import Mathlib

/-!
Verification development for `rename-media-date.py`.

The script is embedded shallowly:
* Python `datetime` values are modelled by `DateTime` (second resolution, the
  resolution of every parse format the script uses); `datetime + timedelta(hours=n)`
  is modelled by `addHours`, via CPython's proleptic-Gregorian ordinal arithmetic
  (`_ymd2ord` / `_ord2ymd` from `Lib/datetime.py`), including the
  `OverflowError` bound `0 < ordinal <= 3652059` (year range 1..9999).
* Strings are `String` (a structure over `List Char`); the regex
  `^\d{4}-\d{2}-\d{2}T\d{2}-\d{2}-\d{2}_` is the positional check `tsPrefixMatch`
  (digits are ASCII `0`-`9`).
* The filesystem is a list of `(directory, filename)` entries; `shutil.copy2`
  appends an entry and may fail (an uncaught exception), driven by a `copyOk`
  oracle; `os.listdir` filters the entry list.
* Fallible library calls (PIL, hachoir, `strptime`) are oracles in a `MediaEnv`
  structure returning `Except String`; Python `try`/`except` is a `match`.
-/

namespace RenameMediaDate

/-! ### CPython calendar arithmetic (`Lib/datetime.py` `_ymd2ord`, `_ord2ymd`) -/

/-- Table `_DAYS_IN_MONTH[m]` from CPython's `datetime` module (non-leap February). -/
def DAYS_IN_MONTH (m : Nat) : Nat :=
  match m with
  | 1 => 31 | 2 => 28 | 3 => 31 | 4 => 30 | 5 => 31 | 6 => 30
  | 7 => 31 | 8 => 31 | 9 => 30 | 10 => 31 | 11 => 30 | 12 => 31
  | _ => 0

/-- Table `_DAYS_BEFORE_MONTH[m]` from CPython's `datetime` module. -/
def DAYS_BEFORE_MONTH (m : Nat) : Nat :=
  match m with
  | 1 => 0 | 2 => 31 | 3 => 59 | 4 => 90 | 5 => 120 | 6 => 151
  | 7 => 181 | 8 => 212 | 9 => 243 | 10 => 273 | 11 => 304 | 12 => 334
  | _ => 0

/-- Predicate `_is_leap(year)` from CPython's `datetime` module. -/
def isLeap (y : Nat) : Bool :=
  y % 4 == 0 && (y % 100 != 0 || y % 400 == 0)

/-- Function `_days_before_year(year)`: days before January 1st of `year`
(yields `0` for year 1; the `-` is never truncating since `(y-1)*365 ≥ (y-1)/100`). -/
def daysBeforeYear (y : Nat) : Nat :=
  (y - 1) * 365 + (y - 1) / 4 - (y - 1) / 100 + (y - 1) / 400

/-- Function `_ymd2ord(year, month, day)`: proleptic Gregorian ordinal
(day 1 is 0001-01-01). -/
def ymd2ord (y m d : Nat) : Nat :=
  daysBeforeYear y + DAYS_BEFORE_MONTH m + (if 2 < m && isLeap y then 1 else 0) + d

/-- Function `_ord2ymd(n)`: inverse of `ymd2ord`, CPython's 400/100/4/1-year-cycle
algorithm, returning `(year, month, day)`. -/
def ord2ymd (nn : Nat) : Nat × Nat × Nat :=
  let n0 := nn - 1
  let n400 := n0 / 146097
  let r400 := n0 % 146097
  let n100 := r400 / 36524
  let r100 := r400 % 36524
  let n4 := r100 / 1461
  let r4 := r100 % 1461
  let n1 := r4 / 365
  let n := r4 % 365
  let year := n400 * 400 + 1 + n100 * 100 + n4 * 4 + n1
  if n1 == 4 || n100 == 4 then
    (year - 1, 12, 31)
  else
    let leapyear := n1 == 3 && (n4 != 24 || n100 == 3)
    let month := (n + 50) / 32
    let preceding := DAYS_BEFORE_MONTH month + (if 2 < month && leapyear then 1 else 0)
    if n < preceding then
      let month' := month - 1
      let preceding' :=
        preceding - (DAYS_IN_MONTH month' + (if month' == 2 && leapyear then 1 else 0))
      (year, month', n - preceding' + 1)
    else
      (year, month, n - preceding + 1)

/-- Restatement of the body of `ord2ymd` over the four quotient/remainder
components of its division chain (definitionally equal to `ord2ymd`; used to
state the round-trip proof). -/
def ord2ymdAux (a b c d1 nsm : Nat) : Nat × Nat × Nat :=
  let year := a * 400 + 1 + b * 100 + c * 4 + d1
  if d1 == 4 || b == 4 then (year - 1, 12, 31)
  else
    let leapyear := d1 == 3 && (c != 24 || b == 3)
    let month := (nsm + 50) / 32
    let preceding := DAYS_BEFORE_MONTH month + (if 2 < month && leapyear then 1 else 0)
    if nsm < preceding then
      let month' := month - 1
      let preceding' :=
        preceding - (DAYS_IN_MONTH month' + (if month' == 2 && leapyear then 1 else 0))
      (year, month', nsm - preceding' + 1)
    else
      (year, month, nsm - preceding + 1)

/-- A timezone-naive Python `datetime` at second resolution. -/
structure DateTime where
  year : Nat
  month : Nat
  day : Nat
  hour : Nat
  minute : Nat
  second : Nat
deriving DecidableEq, Repr

/-- The `datetime` class invariant: a valid proleptic Gregorian calendar
date in year 1..9999 with a valid time of day. -/
def isValidDateTime (t : DateTime) : Prop :=
  1 ≤ t.year ∧ t.year ≤ 9999 ∧ 1 ≤ t.month ∧ t.month ≤ 12 ∧ 1 ≤ t.day ∧
    t.day ≤ DAYS_IN_MONTH t.month + (if t.month == 2 && isLeap t.year then 1 else 0) ∧
    t.hour < 24 ∧ t.minute < 60 ∧ t.second < 60

instance (t : DateTime) : Decidable (isValidDateTime t) := by
  unfold isValidDateTime; infer_instance

/-- Seconds since 0001-01-01T00:00:00 on the proleptic Gregorian timeline. -/
def totalSeconds (t : DateTime) : Nat :=
  (ymd2ord t.year t.month t.day - 1) * 86400 + t.hour * 3600 + t.minute * 60 + t.second

/-- Embedding of `media_creation_date + datetime.timedelta(hours=adjust_hours)`
(src line 74): CPython converts to ordinal days + seconds, adds, and converts
back, raising `OverflowError` (here `none`) when the resulting ordinal leaves
`1..3652059` (i.e. the year leaves 1..9999). -/
def addHours (t : DateTime) (n : Int) : Option DateTime :=
  let tot : Int := (totalSeconds t : Int) + 3600 * n
  if tot < 0 then none
  else
    let totN := tot.toNat
    let days := totN / 86400
    if 3652059 < days + 1 then none
    else
      let ymd := ord2ymd (days + 1)
      let s := totN % 86400
      some ⟨ymd.1, ymd.2.1, ymd.2.2, s / 3600, s % 3600 / 60, s % 60⟩

/-! ### Strings, filenames and paths -/

/-- The character class `[<>:"/\\|?*]` of `sanitize_filename` (src line 67). -/
def isBadChar (c : Char) : Bool :=
  c == '<' || c == '>' || c == ':' || c == '"' || c == '/' || c == '\\' ||
    c == '|' || c == '?' || c == '*'

/-- Function `sanitize_filename` (src lines 65-67): replace each invalid character
with a hyphen. -/
def sanitize_filename (s : String) : String :=
  ⟨s.data.map (fun c => if isBadChar c then '-' else c)⟩

/-- Character class at position `i` of the fixed-length regex
`\d{4}-\d{2}-\d{2}T\d{2}-\d{2}-\d{2}_` (ASCII digits). -/
def classAt (i : Nat) (c : Char) : Bool :=
  if i == 4 || i == 7 || i == 13 || i == 16 then c == '-'
  else if i == 10 then c == 'T'
  else if i == 19 then c == '_'
  else c.isDigit

/-- Anchored match of `^\d{4}-\d{2}-\d{2}T\d{2}-\d{2}-\d{2}_`: the first 20
characters exist and each lies in its positional class. -/
def tsPrefixMatch (l : List Char) : Bool :=
  if 20 ≤ l.length then
    (List.range 20).all (fun i => match l.get? i with | some c => classAt i c | none => false)
  else false

/-- Embedding of `re.sub(r"^\d{4}-\d{2}-\d{2}T\d{2}-\d{2}-\d{2}_", "", s)` (src lines 14
and 19): the anchored fixed-length pattern matches at most once, removing the
first 20 characters. -/
def stripTs (s : String) : String :=
  if tsPrefixMatch s.data then ⟨s.data.drop 20⟩ else s

/-- Function `has_timestamp_in_filename` (src lines 60-63): `re.search` of the
anchored pattern is a prefix match. -/
def has_timestamp_in_filename (filename : String) : Bool :=
  tsPrefixMatch filename.data

/-- Index of the last occurrence of `c` (Python `str.rfind`, `none` for -1). -/
def lastIdx (c : Char) : List Char → Option Nat
  | [] => none
  | a :: as =>
    match lastIdx c as with
    | some k => some (k + 1)
    | none => if a == c then some 0 else none

/-- CPython `posixpath.splitext` (via `genericpath._splitext` with `sep='/'`):
split off the extension at the last dot, unless every character between the
last separator and that dot is a dot (so `.bashrc` has no extension). -/
def splitextL (l : List Char) : List Char × List Char :=
  match lastIdx '.' l with
  | none => (l, [])
  | some di =>
    let si := match lastIdx '/' l with | none => 0 | some k => k + 1
    if si ≤ di then
      if ((l.drop si).take (di - si)).any (fun c => c != '.') then (l.take di, l.drop di)
      else (l, [])
    else (l, [])

/-- Function `os.path.splitext` on strings. -/
def splitext (s : String) : String × String :=
  (⟨(splitextL s.data).1⟩, ⟨(splitextL s.data).2⟩)

/-- Strip trailing `/` characters (Python `str.rstrip('/')`). -/
def rstripSlash (l : List Char) : List Char :=
  (l.reverse.dropWhile (fun c => c == '/')).reverse

/-- CPython `posixpath.split`: split at the final slash; the head keeps no
trailing slashes unless it consists only of slashes. -/
def osSplitL (l : List Char) : List Char × List Char :=
  let i := match lastIdx '/' l with | none => 0 | some k => k + 1
  let head := l.take i
  let tail := l.drop i
  (if head.any (fun c => c != '/') then rstripSlash head else head, tail)

/-- Function `os.path.split` on strings. -/
def osSplit (s : String) : String × String :=
  (⟨(osSplitL s.data).1⟩, ⟨(osSplitL s.data).2⟩)

/-- CPython `posixpath.join` for two components. -/
def osJoin (a b : String) : String :=
  if b.data.head? == some '/' then b
  else if a.data = [] || a.data.getLast? == some '/' then ⟨a.data ++ b.data⟩
  else ⟨a.data ++ '/' :: b.data⟩

/-- The timestamp-removal step of `save_media_with_datetime` (src lines
82-87): if the stem carries a timestamp prefix, `split("_")`, `pop(0)` and
rejoin with `"_"`. -/
def strippedStem (stem : String) : String :=
  if has_timestamp_in_filename stem then
    ⟨List.intercalate ['_'] ((stem.data.splitOn '_').drop 1)⟩
  else stem

/-- The 19 characters of `datetime.isoformat()` for a second-resolution
`datetime` with a 4-digit year (`YYYY-MM-DDTHH:MM:SS`, zero-padded decimal
fields). -/
def iso19 (t : DateTime) : List Char :=
  [Nat.digitChar (t.year / 1000 % 10), Nat.digitChar (t.year / 100 % 10),
   Nat.digitChar (t.year / 10 % 10), Nat.digitChar (t.year % 10), '-',
   Nat.digitChar (t.month / 10 % 10), Nat.digitChar (t.month % 10), '-',
   Nat.digitChar (t.day / 10 % 10), Nat.digitChar (t.day % 10), 'T',
   Nat.digitChar (t.hour / 10 % 10), Nat.digitChar (t.hour % 10), ':',
   Nat.digitChar (t.minute / 10 % 10), Nat.digitChar (t.minute % 10), ':',
   Nat.digitChar (t.second / 10 % 10), Nat.digitChar (t.second % 10)]

/-- Embedding of `adjusted_datetime.isoformat()` (src line 89). -/
def isoformat (t : DateTime) : String :=
  ⟨iso19 t⟩

/-! ### Filesystem model -/

/-- The filesystem: a list of files, each an entry `(directory, filename)`.
Copying only ever adds entries; nothing is deleted or renamed in place. -/
def FS : Type := List (String × String)

instance : Membership (String × String) FS := inferInstanceAs (Membership _ (List _))
instance : DecidableEq FS := inferInstanceAs (DecidableEq (List (String × String)))

/-- Embedding of `os.listdir(directory)`: the filenames of the entries in
`directory`. -/
def listdir (fs : FS) (directory : String) : List String :=
  (List.filter (fun e => e.1 == directory) fs).map (fun e => e.2)

/-- Embedding of `os.path.exists(p)`: some entry's joined path equals `p`. -/
def pathExists (fs : FS) (p : String) : Bool :=
  List.any fs (fun e => osJoin e.1 e.2 == p)

/-- Function `filename_has_match` (src lines 12-25): some file in `directory`
has the same name as `filename` once leading timestamps are stripped from
both. -/
def filename_has_match (fs : FS) (directory filename : String) : Bool :=
  (listdir fs directory).any (fun file => stripTs file == stripTs filename)

/-! ### Filename derivation (src lines 74-97), factored for reuse -/

/-- The target directory of `save_media_with_datetime` (src lines 76-78 and
92-95): the destination directory if given, else the source file's own
directory (`"."` when the path has no directory part). -/
def targetDirOf (original_path : String) (destination_dir : Option String) : String :=
  match destination_dir with
  | some dd => dd
  | none => if (osSplit original_path).1 = "" then "." else (osSplit original_path).1

/-- The sanitized derived filename of `save_media_with_datetime` (src lines
80-90) for an already-adjusted timestamp. -/
def candidateName (original_path : String) (adjusted : DateTime) : String :=
  sanitize_filename (isoformat adjusted ++ "_" ++
    strippedStem (splitext (osSplit original_path).2).1 ++ (splitext (osSplit original_path).2).2)

/-- The full target path `new_path` (src line 97). -/
def newPathOf (original_path : String) (adjusted : DateTime)
    (destination_dir : Option String) : String :=
  osJoin (targetDirOf original_path destination_dir) (candidateName original_path adjusted)

/-- The duplicate condition of src line 101 (without the `force` guard):
the exact target path exists, or an equivalent-name file is in the target
directory. -/
def dupCond (fs : FS) (original_path : String) (adjusted : DateTime)
    (destination_dir : Option String) : Bool :=
  pathExists fs (newPathOf original_path adjusted destination_dir) ||
    filename_has_match fs (targetDirOf original_path destination_dir)
      (candidateName original_path adjusted)

/-! ### Copy orchestrator (src lines 69-113) -/

/-- Function `save_media_with_datetime` (src lines 69-113). Returns the
printed lines together with the updated filesystem and the function's boolean
result; `Except.error` models an uncaught exception (`OverflowError` from the
timestamp adjustment, or `shutil.copy2` failing as decided by the `copyOk`
oracle). Note that the duplicate-skip branch prints nothing: its `print` (src
line 103) is commented out. -/
def save_media_with_datetime (fs : FS) (copyOk : String → String → Bool)
    (original_path : String) (media_creation_date : Option DateTime)
    (destination_dir : Option String) (adjust_hours : Int)
    (simulate force : Bool) : Except String (Bool × FS × List String) :=
  match media_creation_date with
  | none =>
    .ok (false, fs, [original_path ++ " - File does not contain creation date in metadata."])
  | some d =>
    match addHours d adjust_hours with
    | none => .error "OverflowError: date value out of range"
    | some adjusted =>
      let original_dir := if (osSplit original_path).1 = "" then "." else (osSplit original_path).1
      let original_filename := (osSplit original_path).2
      let filename := strippedStem (splitext original_filename).1
      let extension := (splitext original_filename).2
      let new_filename := isoformat adjusted ++ "_" ++ filename ++ extension
      let sanitized_new_filename := sanitize_filename new_filename
      let target_dir := match destination_dir with | none => original_dir | some dd => dd
      let new_path := osJoin target_dir sanitized_new_filename
      if !force && (pathExists fs new_path ||
          filename_has_match fs target_dir sanitized_new_filename) then
        .ok (false, fs, [])
      else if !simulate then
        if copyOk original_path new_path then
          .ok (true, (target_dir, sanitized_new_filename) :: fs,
            [original_path ++ " -> " ++ new_path ++ " - Copied"])
        else .error ("copy2 failed: " ++ original_path)
      else
        .ok (true, fs, [original_path ++ " -> " ++ new_path ++ " - Simulated Copy"])

/-- The per-file outcome vocabulary of the specification (section 3). -/
inductive CopyOutcome where
  | copied
  | simulatedCopy
  | skippedDuplicate
  | skippedNoDate
deriving DecidableEq, Repr

/-- Classification of a non-raising `save_media_with_datetime` call from its
inputs and boolean result: `False` with a date present means the duplicate
skip, `True` means a (simulated) copy, a missing date means no-date. -/
def saveOutcome (media_creation_date : Option DateTime) (simulate ret : Bool) : CopyOutcome :=
  match media_creation_date with
  | none => .skippedNoDate
  | some _ => if ret then (if simulate then .simulatedCopy else .copied) else .skippedDuplicate

/-! ### Metadata extractor (src lines 27-58) -/

/-- A value held under the `"creation_date"` metadata key: either a structured
`datetime` or a string still to be parsed (src lines 43-45). -/
inductive MetaVal where
  | dt (t : DateTime)
  | str (s : String)

/-- Oracles for the fallible library calls of `get_media_creation_date`:
hachoir's `createParser` / `extractMetadata` / `metadata.get`, PIL's
`Image.open` / `_getexif`, and `datetime.strptime` for the two fixed formats.
An `Except.error` is an exception raised by the call; `Option` models Python
`None` (or a falsy value / missing dictionary key). -/
structure MediaEnv where
  Parser : Type
  Metadata : Type
  Image : Type
  createParser : String → Except String (Option Parser)
  extractMetadata : Parser → Except String (Option Metadata)
  metaGetCreationDate : Metadata → Except String (Option MetaVal)
  strptimeIso : String → Except String DateTime
  imageOpen : String → Except String Image
  getexif : Image → Except String (Option (Nat → Option String))
  strptimeExif : String → Except String DateTime

/-- Embedding of `media_path.lower().endswith(".mp4")` (src line 29): ASCII
lowercase each character and compare the last four characters. -/
def lowerEndsWithMp4 (media_path : String) : Bool :=
  (media_path.data.map Char.toLower).reverse.take 4 == ['4', 'p', 'm', '.']

/-- The body of the `try` block of `get_media_creation_date` (src lines
28-55): any raised exception is an `Except.error`. -/
def getMediaBody (env : MediaEnv) (media_path : String) : Except String (Option DateTime) :=
  if lowerEndsWithMp4 media_path then do
    let parser? ← env.createParser media_path
    match parser? with
    | none => throw "Unable to parse the MP4 file."
    | some parser => do
      let metadata? ← env.extractMetadata parser
      match metadata? with
      | none => throw "Unable to extract metadata from the MP4 file."
      | some metadata => do
        let v? ← env.metaGetCreationDate metadata
        match v? with
        | none => throw "Media creation date not found in the metadata."
        | some (.dt t) => pure (some t)
        | some (.str s) =>
          if s = "" then throw "Media creation date not found in the metadata."
          else do
            let t ← env.strptimeIso s
            pure (some t)
  else do
    let image ← env.imageOpen media_path
    let exif? ← env.getexif image
    match exif? with
    | some exif =>
      match exif 36867 with
      | some date_taken => do
        let t ← env.strptimeExif date_taken
        pure (some t)
      | none => pure none
    | none => pure none

/-- Function `get_media_creation_date` (src lines 27-58): the `try`/`except`
wrapper around `getMediaBody`. Returns the extracted timestamp (or `none`)
together with the lines printed to standard output. -/
def get_media_creation_date (env : MediaEnv) (media_path : String) :
    Option DateTime × List String :=
  match getMediaBody env media_path with
  | .ok v => (v, [])
  | .error e => (none, ["Error: " ++ e])

/-- A concrete oracle environment for witnesses and counterexamples: every
image opens, its EXIF dictionary holds tag 36867 = "2023:05:10 14:30:00", and
parsing that string yields 2023-05-10T14:30:00; the MP4 oracles are unused for
.jpg paths. -/
def exifEnv : MediaEnv where
  Parser := Unit
  Metadata := Unit
  Image := Unit
  createParser := fun _ => .ok none
  extractMetadata := fun _ => .ok none
  metaGetCreationDate := fun _ => .ok none
  strptimeIso := fun _ => .error "ValueError"
  imageOpen := fun _ => .ok ()
  getexif := fun _ =>
    .ok (some (fun tag => if tag == 36867 then some "2023:05:10 14:30:00" else none))
  strptimeExif := fun _ => .ok ⟨2023, 5, 10, 14, 30, 0⟩

/-! ### Batch driver (src lines 115-137) -/

/-- The summary line of src line 137. -/
def summaryLine (req proc nodate : Nat) : String :=
  "\nInput Media: " ++ toString req ++ ", Processed: " ++ toString proc ++
    ", Already Copied: " ++ toString (req - proc - nodate) ++
    ", No Creation Date: " ++ toString nodate

/-- The `for media_file in media_files` loop of `process_media` (src lines
126-135), carrying the three counters. Returns the final filesystem, the
printed lines, and `some (requested, processed, without_dates)` on normal
completion — `none` when an uncaught exception aborted the batch. -/
def processLoop (env : MediaEnv) (copyOk : String → String → Bool)
    (destination_dir : Option String) (adjust_hours : Int) (simulate force : Bool) :
    List String → FS → Nat → Nat → Nat → FS × List String × Option (Nat × Nat × Nat)
  | [], fs, req, proc, nodate => (fs, [], some (req, proc, nodate))
  | media_file :: rest, fs, req, proc, nodate =>
    let g := get_media_creation_date env media_file
    match g.1 with
    | some d =>
      match save_media_with_datetime fs copyOk media_file (some d)
          destination_dir adjust_hours simulate force with
      | .error _ => (fs, g.2, none)
      | .ok (ret, fs', lines) =>
        let r := processLoop env copyOk destination_dir adjust_hours simulate force
          rest fs' (req + 1) (if ret then proc + 1 else proc) nodate
        (r.1, g.2 ++ lines ++ r.2.1, r.2.2)
    | none =>
      let r := processLoop env copyOk destination_dir adjust_hours simulate force
        rest fs (req + 1) proc (nodate + 1)
      (r.1, g.2 ++ [media_file ++ " - File does not contain the creation date in metadata"]
        ++ r.2.1, r.2.2)

/-- Function `process_media` (src lines 115-137). `media_files` is the result
of the `glob.glob(file_spec)` expansion (an environment input). On normal
completion of a non-empty batch the summary line is printed; an uncaught
exception (third component `none`) aborts the run without it. -/
def process_media (env : MediaEnv) (copyOk : String → String → Bool)
    (media_files : List String) (fs : FS) (destination_dir : Option String)
    (adjust_hours : Int) (simulate force : Bool) :
    FS × List String × Option (Nat × Nat × Nat) :=
  if media_files = [] then (fs, ["No matching media files found."], some (0, 0, 0))
  else
    match processLoop env copyOk destination_dir adjust_hours simulate force
        media_files fs 0 0 0 with
    | (fs', out, some st) => (fs', out ++ [summaryLine st.1 st.2.1 st.2.2], some st)
    | (fs', out, none) => (fs', out, none)

/-! ### Calendar correctness: the ordinal conversion round-trips -/


lemma isLeap_iff (y : Nat) : isLeap y = true ↔ (y % 4 = 0 ∧ (y % 100 ≠ 0 ∨ y % 400 = 0)) := by
  simp [isLeap]

lemma isLeap_main (a b c d : Nat) (hb : b ≤ 3) (hc : c ≤ 24) (hd : d ≤ 3) :
    isLeap (a * 400 + 1 + b * 100 + c * 4 + d) = (d == 3 && (c != 24 || b == 3)) := by
  rw [Bool.eq_iff_iff, isLeap_iff]
  simp only [Bool.and_eq_true, Bool.or_eq_true, beq_iff_eq, bne_iff_ne, ne_eq]
  omega

set_option maxHeartbeats 1000000 in
set_option maxRecDepth 10000 in
lemma bridge_lt : ∀ nsm < 365, ∀ lp : Bool,
    nsm < DAYS_BEFORE_MONTH ((nsm + 50) / 32) +
      (if 2 < (nsm + 50) / 32 && lp then 1 else 0) →
    1 ≤ (nsm + 50) / 32 - 1 ∧ (nsm + 50) / 32 - 1 ≤ 12 ∧
    (DAYS_BEFORE_MONTH ((nsm + 50) / 32) + (if 2 < (nsm + 50) / 32 && lp then 1 else 0)
      - (DAYS_IN_MONTH ((nsm + 50) / 32 - 1) +
          (if (nsm + 50) / 32 - 1 == 2 && lp then 1 else 0))) ≤ nsm ∧
    nsm - (DAYS_BEFORE_MONTH ((nsm + 50) / 32) + (if 2 < (nsm + 50) / 32 && lp then 1 else 0)
      - (DAYS_IN_MONTH ((nsm + 50) / 32 - 1) +
          (if (nsm + 50) / 32 - 1 == 2 && lp then 1 else 0))) + 1 ≤
      DAYS_IN_MONTH ((nsm + 50) / 32 - 1) +
        (if (nsm + 50) / 32 - 1 == 2 && lp then 1 else 0) ∧
    DAYS_BEFORE_MONTH ((nsm + 50) / 32 - 1) +
      (if 2 < (nsm + 50) / 32 - 1 && lp then 1 else 0) +
      (nsm - (DAYS_BEFORE_MONTH ((nsm + 50) / 32) +
        (if 2 < (nsm + 50) / 32 && lp then 1 else 0)
        - (DAYS_IN_MONTH ((nsm + 50) / 32 - 1) +
            (if (nsm + 50) / 32 - 1 == 2 && lp then 1 else 0))) + 1) = nsm + 1 := by
  decide

set_option maxHeartbeats 1000000 in
set_option maxRecDepth 10000 in
lemma bridge_ge : ∀ nsm < 365, ∀ lp : Bool,
    ¬(nsm < DAYS_BEFORE_MONTH ((nsm + 50) / 32) +
      (if 2 < (nsm + 50) / 32 && lp then 1 else 0)) →
    1 ≤ (nsm + 50) / 32 ∧ (nsm + 50) / 32 ≤ 12 ∧
    (DAYS_BEFORE_MONTH ((nsm + 50) / 32) + (if 2 < (nsm + 50) / 32 && lp then 1 else 0)) ≤ nsm ∧
    nsm - (DAYS_BEFORE_MONTH ((nsm + 50) / 32) +
      (if 2 < (nsm + 50) / 32 && lp then 1 else 0)) + 1 ≤
      DAYS_IN_MONTH ((nsm + 50) / 32) + (if (nsm + 50) / 32 == 2 && lp then 1 else 0) ∧
    DAYS_BEFORE_MONTH ((nsm + 50) / 32) + (if 2 < (nsm + 50) / 32 && lp then 1 else 0) +
      (nsm - (DAYS_BEFORE_MONTH ((nsm + 50) / 32) +
        (if 2 < (nsm + 50) / 32 && lp then 1 else 0)) + 1) = nsm + 1 := by
  decide

lemma ord2ymd_eq_aux (nn : Nat) : ord2ymd nn =
    ord2ymdAux ((nn - 1) / 146097) ((nn - 1) % 146097 / 36524)
      ((nn - 1) % 146097 % 36524 / 1461) ((nn - 1) % 146097 % 36524 % 1461 / 365)
      ((nn - 1) % 146097 % 36524 % 1461 % 365) := rfl

lemma daysBeforeYear_eq (a b c d1 : Nat) (hb : b ≤ 3) (hc : c ≤ 24) (hd : d1 ≤ 3) :
    daysBeforeYear (a * 400 + 1 + b * 100 + c * 4 + d1) =
      146097 * a + 36524 * b + 1461 * c + 365 * d1 := by
  simp only [daysBeforeYear]
  have h1 : a * 400 + 1 + b * 100 + c * 4 + d1 - 1 = 400 * a + 100 * b + 4 * c + d1 := by
    omega
  rw [h1]
  omega

lemma ord2ymdAux_spec (m0 a r1 b r2 c r3 d1 nsm : Nat)
    (e1 : m0 = 146097 * a + r1) (l1 : r1 < 146097)
    (e2 : r1 = 36524 * b + r2) (l2 : r2 < 36524)
    (e3 : r2 = 1461 * c + r3) (l3 : r3 < 1461)
    (e4 : r3 = 365 * d1 + nsm) (l4 : nsm < 365) :
    ymd2ord (ord2ymdAux a b c d1 nsm).1 (ord2ymdAux a b c d1 nsm).2.1
      (ord2ymdAux a b c d1 nsm).2.2 = m0 + 1 ∧
    1 ≤ (ord2ymdAux a b c d1 nsm).1 ∧
    1 ≤ (ord2ymdAux a b c d1 nsm).2.1 ∧ (ord2ymdAux a b c d1 nsm).2.1 ≤ 12 ∧
    1 ≤ (ord2ymdAux a b c d1 nsm).2.2 ∧
    (ord2ymdAux a b c d1 nsm).2.2 ≤ DAYS_IN_MONTH (ord2ymdAux a b c d1 nsm).2.1 +
      (if (ord2ymdAux a b c d1 nsm).2.1 == 2 && isLeap (ord2ymdAux a b c d1 nsm).1
        then 1 else 0) := by
  simp only [ord2ymdAux]
  by_cases hco : (d1 == 4 || b == 4) = true
  · rw [if_pos hco]
    simp only [Bool.or_eq_true, beq_iff_eq] at hco
    have hl : isLeap (a * 400 + 1 + b * 100 + c * 4 + d1 - 1) = true := by
      rw [isLeap_iff]; omega
    simp only [ymd2ord, hl,
      show DAYS_BEFORE_MONTH 12 = 334 from rfl, show DAYS_IN_MONTH 12 = 31 from rfl]
    norm_num
    rcases hco with h | h
    · have hY : a * 400 + 1 + b * 100 + c * 4 + d1 - 1 = a * 400 + 1 + b * 100 + c * 4 + 3 := by
        omega
      rw [hY, daysBeforeYear_eq a b c 3 (by omega) (by omega) (by omega)]
      omega
    · have hY : a * 400 + 1 + b * 100 + c * 4 + d1 - 1 = a * 400 + 1 + 3 * 100 + 24 * 4 + 3 := by
        omega
      rw [hY, daysBeforeYear_eq a 3 24 3 (by omega) (by omega) (by omega)]
      omega
  · rw [if_neg hco]
    simp only [Bool.or_eq_true, beq_iff_eq, not_or] at hco
    have hIsLeap : isLeap (a * 400 + 1 + b * 100 + c * 4 + d1) =
        (d1 == 3 && (c != 24 || b == 3)) := by
      refine isLeap_main a b c d1 ?_ ?_ ?_ <;> omega
    have hdBY := daysBeforeYear_eq a b c d1 (by omega) (by omega) (by omega)
    by_cases hcc : nsm < DAYS_BEFORE_MONTH ((nsm + 50) / 32) +
        (if 2 < (nsm + 50) / 32 && (d1 == 3 && (c != 24 || b == 3)) then 1 else 0)
    · rw [if_pos hcc]
      obtain ⟨f1, f2, f3, f4, f5⟩ :=
        bridge_lt nsm l4 (d1 == 3 && (c != 24 || b == 3)) hcc
      simp only [ymd2ord, hIsLeap, hdBY]
      omega
    · rw [if_neg hcc]
      obtain ⟨f1, f2, f3, f4, f5⟩ :=
        bridge_ge nsm l4 (d1 == 3 && (c != 24 || b == 3)) hcc
      simp only [ymd2ord, hIsLeap, hdBY]
      omega

theorem ord2ymd_spec (nn : Nat) (h1 : 1 ≤ nn) :
    ymd2ord (ord2ymd nn).1 (ord2ymd nn).2.1 (ord2ymd nn).2.2 = nn ∧
    1 ≤ (ord2ymd nn).1 ∧
    1 ≤ (ord2ymd nn).2.1 ∧ (ord2ymd nn).2.1 ≤ 12 ∧
    1 ≤ (ord2ymd nn).2.2 ∧
    (ord2ymd nn).2.2 ≤ DAYS_IN_MONTH (ord2ymd nn).2.1 +
      (if (ord2ymd nn).2.1 == 2 && isLeap (ord2ymd nn).1 then 1 else 0) := by
  rw [ord2ymd_eq_aux]
  have h := ord2ymdAux_spec (nn - 1) ((nn - 1) / 146097) ((nn - 1) % 146097)
    ((nn - 1) % 146097 / 36524) ((nn - 1) % 146097 % 36524)
    ((nn - 1) % 146097 % 36524 / 1461) ((nn - 1) % 146097 % 36524 % 1461)
    ((nn - 1) % 146097 % 36524 % 1461 / 365) ((nn - 1) % 146097 % 36524 % 1461 % 365)
    (by omega) (by omega) (by omega) (by omega) (by omega) (by omega) (by omega) (by omega)
  rw [show nn - 1 + 1 = nn from by omega] at h
  exact h
lemma daysBeforeYear_lb (y : Nat) (h : 10000 ≤ y) : 3652059 ≤ daysBeforeYear y := by
  obtain ⟨z, rfl⟩ : ∃ z, y = z + 1 := ⟨y - 1, by omega⟩
  simp only [daysBeforeYear, Nat.add_sub_cancel]
  omega

theorem addHours_spec (t : DateTime) (n : Int) (a : DateTime)
    (h : addHours t n = some a) :
    (totalSeconds a : Int) = (totalSeconds t : Int) + 3600 * n ∧ isValidDateTime a := by
  simp only [addHours] at h
  split at h
  · exact absurd h (by simp)
  · split at h
    · exact absurd h (by simp)
    · rename_i hnneg hbound
      cases Option.some.inj h
      have hN : (((totalSeconds t : Int) + 3600 * n).toNat : Int) =
          (totalSeconds t : Int) + 3600 * n := Int.toNat_of_nonneg (by omega)
      generalize hNg : ((totalSeconds t : Int) + 3600 * n).toNat = N at *
      have hspec := ord2ymd_spec (N / 86400 + 1) (by omega)
      have h1 := hspec.1
      constructor
      · rw [← hN]
        norm_cast
        simp only [totalSeconds]
        rw [h1]
        omega
      · simp only [isValidDateTime]
        have h2 := h1
        simp only [ymd2ord] at h2
        refine ⟨hspec.2.1, ?_, hspec.2.2.1, hspec.2.2.2.1, hspec.2.2.2.2.1,
          hspec.2.2.2.2.2, by omega, by omega, by omega⟩
        by_contra hy
        have hlb := daysBeforeYear_lb (ord2ymd (N / 86400 + 1)).1 (by omega)
        have hd1 := hspec.2.2.2.2.1
        omega

lemma lastIdx_none {c : Char} {l : List Char} (h : lastIdx c l = none) : c ∉ l := by
  induction l with
  | nil => simp
  | cons a as ih =>
    simp only [lastIdx] at h
    cases hm : lastIdx c as with
    | some k => rw [hm] at h; cases h
    | none =>
      rw [hm] at h
      by_cases hac : (a == c) = true
      · rw [if_pos hac] at h; cases h
      · simp only [List.mem_cons, not_or]
        refine ⟨fun he => ?_, ih hm⟩
        rw [he] at hac
        simp at hac
      
lemma lastIdx_get {c : Char} {l : List Char} {k : Nat} (h : lastIdx c l = some k) :
    l.get? k = some c := by
  induction l generalizing k with
  | nil => cases h
  | cons a as ih =>
    simp only [lastIdx] at h
    cases hm : lastIdx c as with
    | some k' =>
      rw [hm] at h
      injection h with h
      subst h
      simpa using ih hm
    | none =>
      rw [hm] at h
      by_cases hac : (a == c) = true
      · rw [if_pos hac] at h
        injection h with h
        subst h
        simp only [beq_iff_eq] at hac
        simp [hac]
      · rw [if_neg hac] at h; cases h

lemma lastIdx_drop {c : Char} {l : List Char} {k : Nat} (h : lastIdx c l = some k) :
    c ∉ l.drop (k + 1) := by
  induction l generalizing k with
  | nil => cases h
  | cons a as ih =>
    simp only [lastIdx] at h
    cases hm : lastIdx c as with
    | some k' =>
      rw [hm] at h
      injection h with h
      subst h
      simpa using ih hm
    | none =>
      rw [hm] at h
      by_cases hac : (a == c) = true
      · rw [if_pos hac] at h
        injection h with h
        subst h
        simpa using lastIdx_none hm
      · rw [if_neg hac] at h; cases h


lemma tsPrefixMatch_iff {l : List Char} : tsPrefixMatch l = true ↔
    20 ≤ l.length ∧ ∀ i, i < 20 → ∀ c, l.get? i = some c → classAt i c = true := by
  constructor
  · intro h
    simp only [tsPrefixMatch] at h
    split at h
    · rename_i hlen
      refine ⟨hlen, fun i hi c hc => ?_⟩
      rw [List.all_eq_true] at h
      have := h i (by simpa using hi)
      rw [hc] at this
      exact this
    · cases h
  · rintro ⟨hlen, h⟩
    simp only [tsPrefixMatch, if_pos hlen]
    rw [List.all_eq_true]
    intro i hi
    rw [List.mem_range] at hi
    cases hc : l.get? i with
    | some c => exact h i hi c hc
    | none =>
      rw [List.get?_eq_none] at hc
      omega

lemma classAt_dot (i : Nat) : classAt i '.' = false := by
  simp only [classAt]
  split
  · decide
  · split
    · decide
    · split <;> decide

lemma classAt_slash (i : Nat) : classAt i '/' = false := by
  simp only [classAt]
  split
  · decide
  · split
    · decide
    · split <;> decide

lemma classAt_underscore {i : Nat} (h : i < 19) : classAt i '_' = false := by
  simp only [classAt]
  split
  · decide
  · split
    · decide
    · split
      · rename_i h19
        simp only [beq_iff_eq] at h19
        omega
      · decide

lemma tsPrefixMatch_no_dot {l : List Char} (h : tsPrefixMatch l = true) :
    ∀ i, i < 20 → l.get? i ≠ some '.' := by
  intro i hi hc
  have := (tsPrefixMatch_iff.1 h).2 i hi '.' hc
  rw [classAt_dot] at this
  cases this


lemma digitCharMod_not_bad (m : Nat) : isBadChar (Nat.digitChar (m % 10)) = false := by
  have h10 : m % 10 < 10 := Nat.mod_lt _ (by omega)
  have hall : ∀ k, k < 10 → isBadChar (Nat.digitChar k) = false := by decide
  exact hall _ h10

lemma digitCharMod_isDigit (m : Nat) : (Nat.digitChar (m % 10)).isDigit = true := by
  have h10 : m % 10 < 10 := Nat.mod_lt _ (by omega)
  have hall : ∀ k, k < 10 → (Nat.digitChar k).isDigit = true := by decide
  exact hall _ h10

lemma saniso_data (t : DateTime) :
    (sanitize_filename (isoformat t)).data =
      [Nat.digitChar (t.year / 1000 % 10), Nat.digitChar (t.year / 100 % 10),
       Nat.digitChar (t.year / 10 % 10), Nat.digitChar (t.year % 10), '-',
       Nat.digitChar (t.month / 10 % 10), Nat.digitChar (t.month % 10), '-',
       Nat.digitChar (t.day / 10 % 10), Nat.digitChar (t.day % 10), 'T',
       Nat.digitChar (t.hour / 10 % 10), Nat.digitChar (t.hour % 10), '-',
       Nat.digitChar (t.minute / 10 % 10), Nat.digitChar (t.minute % 10), '-',
       Nat.digitChar (t.second / 10 % 10), Nat.digitChar (t.second % 10)] := by
  simp only [sanitize_filename, isoformat, iso19, List.map, digitCharMod_not_bad,
    Bool.false_eq_true, if_false,
    show isBadChar '-' = false from rfl, show isBadChar ':' = true from rfl,
    show isBadChar 'T' = false from rfl, if_true]

lemma tsPrefixMatch_sanIso (t : DateTime) (r : List Char) :
    tsPrefixMatch ((sanitize_filename (isoformat t)).data ++ '_' :: r) = true := by
  rw [saniso_data]
  rw [tsPrefixMatch_iff]
  refine ⟨by simp, ?_⟩
  intro i hi c hc
  interval_cases i <;>
    simp only [List.get?] at hc <;>
    injection hc with hc <;>
    subst hc <;>
    simp [classAt, digitCharMod_isDigit]



lemma tsPrefixMatch_get19 {l : List Char} (h : tsPrefixMatch l = true) :
    l.get? 19 = some '_' := by
  obtain ⟨hlen, hcl⟩ := tsPrefixMatch_iff.1 h
  cases hc : l.get? 19 with
  | none => rw [List.get?_eq_none] at hc; omega
  | some c =>
    have := hcl 19 (by omega) c hc
    simp only [classAt] at this
    norm_num at this
    rw [this]

lemma tsPrefixMatch_no_underscore {l : List Char} (h : tsPrefixMatch l = true) :
    ∀ x ∈ l.take 19, ¬((x == '_') = true) := by
  obtain ⟨hlen, hcl⟩ := tsPrefixMatch_iff.1 h
  intro x hx
  rw [List.mem_iff_get?] at hx
  obtain ⟨i, hi⟩ := hx
  have hilt : i < 19 := by
    by_contra hge
    rw [List.get?_eq_none.2 (by simp; omega)] at hi
    cases hi
  rw [List.get?_take hilt] at hi
  intro heq
  rw [beq_iff_eq] at heq
  subst heq
  have := hcl i (by omega) '_' hi
  rw [classAt_underscore hilt] at this
  cases this

lemma tsPrefixMatch_decomp {l : List Char} (h : tsPrefixMatch l = true) :
    l = l.take 19 ++ '_' :: l.drop 20 := by
  have h19 : l[19]? = some '_' := by
    rw [← List.get?_eq_getElem?]
    exact tsPrefixMatch_get19 h
  conv_lhs => rw [← List.take_append_drop 20 l]
  rw [show (20 : Nat) = 19 + 1 from rfl, List.take_succ, h19]
  simp

lemma strip_drop {l : List Char} (h : tsPrefixMatch l = true) :
    List.intercalate ['_'] ((l.splitOn '_').drop 1) = l.drop 20 := by
  conv_lhs => rw [tsPrefixMatch_decomp h]
  unfold List.splitOn
  rw [List.splitOnP_first _ (l.take 19) (tsPrefixMatch_no_underscore h) '_' (by simp) _]
  simp only [List.drop_succ_cons, List.drop_zero]
  have hi := List.intercalate_splitOn (l.drop 20) '_'
  unfold List.splitOn at hi
  exact hi

lemma strippedStem_eq_stripTs (s : String) : strippedStem s = stripTs s := by
  simp only [strippedStem, stripTs, has_timestamp_in_filename]
  by_cases h : tsPrefixMatch s.data = true
  · rw [if_pos h, if_pos h, strip_drop h]
  · rw [if_neg h, if_neg h]



lemma sanChar_underscore : (if isBadChar '_' then '-' else '_') = '_' := rfl

lemma candidateName_data (p : String) (a : DateTime) :
    (candidateName p a).data =
      (sanitize_filename (isoformat a)).data ++ '_' ::
        (sanitize_filename (strippedStem (splitext (osSplit p).2).1 ++
          (splitext (osSplit p).2).2)).data := by
  simp [candidateName, sanitize_filename, sanChar_underscore]

lemma drop20_sanIso (a : DateTime) (r : List Char) :
    List.drop 20 ((sanitize_filename (isoformat a)).data ++ '_' :: r) = r := by
  rw [saniso_data]
  rfl

lemma stripTs_candidateName (p : String) (a : DateTime) :
    stripTs (candidateName p a) =
      sanitize_filename (strippedStem (splitext (osSplit p).2).1 ++
        (splitext (osSplit p).2).2) := by
  simp only [stripTs, candidateName_data]
  rw [if_pos (tsPrefixMatch_sanIso a _), drop20_sanIso]

lemma splitextL_append (l : List Char) : (splitextL l).1 ++ (splitextL l).2 = l := by
  rcases hd : lastIdx '.' l with _ | di
  · simp only [splitextL, hd]
    simp
  · simp only [splitextL, hd]
    split
    · split
      · simp [List.take_append_drop]
      · simp
    · simp

lemma splitextL_ext_shape (l : List Char) :
    (splitextL l).2 = [] ∨ ∃ r, (splitextL l).2 = '.' :: r := by
  rcases hd : lastIdx '.' l with _ | di
  · simp only [splitextL, hd]
    simp
  · have hget := lastIdx_get hd
    simp only [splitextL, hd]
    split
    · split
      · right
        have hlt : di < l.length := by
          by_contra hge
          rw [List.get?_eq_none.2 (by omega)] at hget
          cases hget
        refine ⟨l.drop (di + 1), ?_⟩
        simp only []
        rw [List.drop_eq_getElem_cons hlt]
        have hh : l[di] = '.' := by
          have h2 := List.get?_eq_getElem? l di
          rw [hget] at h2
          rw [List.getElem?_eq_getElem hlt] at h2
          exact Option.some.inj h2.symm
        rw [hh]
      · simp
    · simp


lemma tsPrefixMatch_append_left {P : List Char} (R : List Char) (h20 : 20 ≤ P.length) :
    tsPrefixMatch (P ++ R) = tsPrefixMatch P := by
  have hget : ∀ i, i < 20 → (P ++ R).get? i = P.get? i := by
    intro i hi
    rw [List.get?_eq_getElem?, List.get?_eq_getElem?, List.getElem?_append_left (by omega)]
  rw [Bool.eq_iff_iff, tsPrefixMatch_iff, tsPrefixMatch_iff]
  constructor
  · rintro ⟨hlen, hcl⟩
    exact ⟨h20, fun i hi c hc => hcl i hi c (by rw [hget i hi]; exact hc)⟩
  · rintro ⟨hlen, hcl⟩
    refine ⟨by simp; omega, fun i hi c hc => hcl i hi c ?_⟩
    rw [← hget i hi]
    exact hc

lemma tsPrefixMatch_stem_ext {l : List Char} :
    tsPrefixMatch l = tsPrefixMatch ((splitextL l).1 ++ (splitextL l).2) := by
  rw [splitextL_append]

lemma stripTs_append_stem {S E : List Char} (hE : E = [] ∨ ∃ r, E = '.' :: r) :
    stripTs ⟨S ++ E⟩ = strippedStem ⟨S⟩ ++ (⟨E⟩ : String) := by
  by_cases hm : tsPrefixMatch S = true
  · have h20 : 20 ≤ S.length := (tsPrefixMatch_iff.1 hm).1
    have hl : tsPrefixMatch (S ++ E) = true := by
      rw [tsPrefixMatch_append_left _ h20]
      exact hm
    rw [strippedStem_eq_stripTs]
    simp only [stripTs, hl, if_true, if_pos hm]
    show (⟨(S ++ E).drop 20⟩ : String) = ⟨S.drop 20 ++ E⟩
    rw [List.drop_append_of_le_length h20]
  · have hl : ¬(tsPrefixMatch (S ++ E) = true) := by
      intro htrue
      rcases hE with he | ⟨r, he⟩
      · rw [he, List.append_nil] at htrue
        exact hm htrue
      · by_cases h20 : 20 ≤ S.length
        · rw [tsPrefixMatch_append_left _ h20] at htrue
          exact hm htrue
        · obtain ⟨hlen, hcl⟩ := tsPrefixMatch_iff.1 htrue
          have hdot : (S ++ E).get? S.length = some '.' := by
            rw [List.get?_eq_getElem?, List.getElem?_append_right (Nat.le_refl _), he]
            simp
          have hcls := hcl S.length (by omega) '.' hdot
          rw [classAt_dot] at hcls
          cases hcls
    rw [strippedStem_eq_stripTs]
    simp only [stripTs, if_neg hl, if_neg hm]
    rfl

lemma stripTs_splitextL (l : List Char) :
    stripTs ⟨l⟩ = strippedStem ⟨(splitextL l).1⟩ ++ (⟨(splitextL l).2⟩ : String) := by
  have happ := splitextL_append l
  have hshape := splitextL_ext_shape l
  rcases hsp : splitextL l with ⟨S, E⟩
  rw [hsp] at happ hshape
  simp only [] at happ hshape
  subst happ
  exact stripTs_append_stem hshape


lemma save_eq (fs : FS) (copyOk : String → String → Bool) (p : String) (d : DateTime)
    (dest : Option String) (adj : Int) (sim force : Bool) :
    save_media_with_datetime fs copyOk p (some d) dest adj sim force =
      match addHours d adj with
      | none => .error "OverflowError: date value out of range"
      | some adjusted =>
        if !force && dupCond fs p adjusted dest then .ok (false, fs, [])
        else if !sim then
          if copyOk p (newPathOf p adjusted dest) then
            .ok (true, (targetDirOf p dest, candidateName p adjusted) :: fs,
              [p ++ " -> " ++ newPathOf p adjusted dest ++ " - Copied"])
          else .error ("copy2 failed: " ++ p)
        else
          .ok (true, fs, [p ++ " -> " ++ newPathOf p adjusted dest ++ " - Simulated Copy"]) := by
  cases haddH : addHours d adj with
  | none => simp [save_media_with_datetime, haddH]
  | some a => cases dest <;> simp only [save_media_with_datetime, haddH] <;> rfl


/-- Pointwise filesystem growth: every entry of `fs` is an entry of `fs2`. -/
def fsLe (fs fs2 : FS) : Prop := ∀ e, e ∈ fs → e ∈ fs2

lemma fsLe_refl (fs : FS) : fsLe fs fs := fun _ he => he

lemma fsLe_cons (fs : FS) (e : String × String) : fsLe fs (e :: fs) :=
  fun _ he => List.mem_cons_of_mem _ he

lemma fsLe_trans {fs1 fs2 fs3 : FS} (h1 : fsLe fs1 fs2) (h2 : fsLe fs2 fs3) : fsLe fs1 fs3 :=
  fun e he => h2 e (h1 e he)

lemma pathExists_mono {fs fs2 : FS} (h : fsLe fs fs2) {p : String}
    (hp : pathExists fs p = true) : pathExists fs2 p = true := by
  rw [pathExists, List.any_eq_true] at hp ⊢
  obtain ⟨e, he, hpe⟩ := hp
  exact ⟨e, h e he, hpe⟩

lemma listdir_mono {fs fs2 : FS} (h : fsLe fs fs2) {d x : String}
    (hx : x ∈ listdir fs d) : x ∈ listdir fs2 d := by
  rw [listdir, List.mem_map] at hx ⊢
  obtain ⟨e, he, hxe⟩ := hx
  rw [List.mem_filter] at he
  exact ⟨e, List.mem_filter.2 ⟨h e he.1, he.2⟩, hxe⟩

lemma filename_has_match_mono {fs fs2 : FS} (h : fsLe fs fs2) {d n : String}
    (hm : filename_has_match fs d n = true) : filename_has_match fs2 d n = true := by
  rw [filename_has_match, List.any_eq_true] at hm ⊢
  obtain ⟨x, hx, hxe⟩ := hm
  exact ⟨x, listdir_mono h hx, hxe⟩

lemma dupCond_mono {fs fs2 : FS} (h : fsLe fs fs2) {p : String} {a : DateTime}
    {dest : Option String} (hd : dupCond fs p a dest = true) : dupCond fs2 p a dest = true := by
  rw [dupCond, Bool.or_eq_true] at hd ⊢
  rcases hd with hd | hd
  · exact Or.inl (pathExists_mono h hd)
  · exact Or.inr (filename_has_match_mono h hd)

lemma pathExists_cons_self (fs : FS) (t c : String) :
    pathExists ((t, c) :: fs) (osJoin t c) = true := by
  rw [pathExists, List.any_eq_true]
  exact ⟨(t, c), List.mem_cons_self _ _, by simp⟩

lemma dupCond_cons_self (fs : FS) (p : String) (a : DateTime) (dest : Option String) :
    dupCond ((targetDirOf p dest, candidateName p a) :: fs) p a dest = true := by
  rw [dupCond, Bool.or_eq_true]
  exact Or.inl (pathExists_cons_self fs _ _)

lemma save_skip {fs : FS} {copyOk : String → String → Bool} {p : String} {d a : DateTime}
    {dest : Option String} {adj : Int} (sim : Bool)
    (haddH : addHours d adj = some a) (hdup : dupCond fs p a dest = true) :
    save_media_with_datetime fs copyOk p (some d) dest adj sim false = .ok (false, fs, []) := by
  rw [save_eq, haddH]
  simp [hdup]

lemma save_ok_cases {fs fs2 : FS} {copyOk : String → String → Bool} {p : String}
    {d : DateTime} {dest : Option String} {adj : Int} {r : Bool} {out : List String}
    (h : save_media_with_datetime fs copyOk p (some d) dest adj false false =
      .ok (r, fs2, out)) :
    ∃ a, addHours d adj = some a ∧
      ((r = false ∧ fs2 = fs ∧ out = [] ∧ dupCond fs p a dest = true) ∨
       (r = true ∧ fs2 = (targetDirOf p dest, candidateName p a) :: fs)) := by
  rw [save_eq] at h
  cases haddH : addHours d adj with
  | none => rw [haddH] at h; cases h
  | some a =>
    rw [haddH] at h
    dsimp only [] at h
    refine ⟨a, rfl, ?_⟩
    cases hdup : dupCond fs p a dest with
    | true =>
      rw [hdup] at h
      simp only [Bool.not_false, Bool.true_and, if_true] at h
      injection h with h
      injection h with h1 h
      injection h with h2 h3
      left
      exact ⟨h1.symm, h2.symm, h3.symm, rfl⟩
    | false =>
      rw [hdup] at h
      simp only [Bool.not_false, Bool.true_and, Bool.false_eq_true, if_false, if_true] at h
      cases hcopy : copyOk p (newPathOf p a dest) with
      | false => rw [hcopy] at h; simp at h
      | true =>
        rw [hcopy] at h
        simp only [if_true] at h
        injection h with h
        injection h with h1 h
        injection h with h2 h3
        right
        exact ⟨h1.symm, h2.symm⟩

lemma save_fsLe {fs fs2 : FS} {copyOk : String → String → Bool} {p : String}
    {md : Option DateTime} {dest : Option String} {adj : Int} {sim force r : Bool}
    {out : List String}
    (h : save_media_with_datetime fs copyOk p md dest adj sim force = .ok (r, fs2, out)) :
    fsLe fs fs2 := by
  cases md with
  | none =>
    simp only [save_media_with_datetime] at h
    injection h with h
    injection h with h1 h
    injection h with h2 h3
    rw [← h2]
    exact fsLe_refl fs
  | some d =>
    rw [save_eq] at h
    cases haddH : addHours d adj with
    | none => rw [haddH] at h; cases h
    | some a =>
      rw [haddH] at h
      dsimp only [] at h
      cases hdup : (!force && dupCond fs p a dest) with
      | true =>
        rw [hdup] at h
        simp only [if_true] at h
        injection h with h
        injection h with h1 h
        injection h with h2 h3
        rw [← h2]
        exact fsLe_refl fs
      | false =>
        rw [hdup] at h
        simp only [Bool.false_eq_true, if_false] at h
        cases hsim : (!sim) with
        | false =>
          rw [hsim] at h
          simp only [Bool.false_eq_true, if_false] at h
          injection h with h
          injection h with h1 h
          injection h with h2 h3
          rw [← h2]
          exact fsLe_refl fs
        | true =>
          rw [hsim] at h
          simp only [if_true] at h
          cases hcopy : copyOk p (newPathOf p a dest) with
          | false => rw [hcopy] at h; simp at h
          | true =>
            rw [hcopy] at h
            simp only [if_true] at h
            injection h with h
            injection h with h1 h
            injection h with h2 h3
            rw [← h2]
            exact fsLe_cons fs _


set_option maxHeartbeats 2000000 in
lemma processLoop_nil (env : MediaEnv) (copyOk : String → String → Bool)
    (dest : Option String) (adj : Int) (sim force : Bool) (fs : FS) (req proc nd : Nat) :
    processLoop env copyOk dest adj sim force [] fs req proc nd =
      (fs, [], some (req, proc, nd)) := rfl

set_option maxHeartbeats 2000000 in
lemma processLoop_cons_none {env : MediaEnv} {f : String}
    (copyOk : String → String → Bool) (dest : Option String) (adj : Int)
    (sim force : Bool) (rest : List String) (fs : FS) (req proc nd : Nat)
    (hg : (get_media_creation_date env f).1 = none) :
    processLoop env copyOk dest adj sim force (f :: rest) fs req proc nd =
      ((processLoop env copyOk dest adj sim force rest fs (req + 1) proc (nd + 1)).1,
       (get_media_creation_date env f).2 ++
         [f ++ " - File does not contain the creation date in metadata"] ++
         (processLoop env copyOk dest adj sim force rest fs (req + 1) proc (nd + 1)).2.1,
       (processLoop env copyOk dest adj sim force rest fs (req + 1) proc (nd + 1)).2.2) := by
  simp only [processLoop]
  rw [hg]

set_option maxHeartbeats 2000000 in
lemma processLoop_cons_err {env : MediaEnv} {f : String} {d : DateTime}
    {copyOk : String → String → Bool} {dest : Option String} {adj : Int}
    {sim force : Bool} {e : String} (rest : List String) {fs : FS} (req proc nd : Nat)
    (hg : (get_media_creation_date env f).1 = some d)
    (hs : save_media_with_datetime fs copyOk f (some d) dest adj sim force = .error e) :
    processLoop env copyOk dest adj sim force (f :: rest) fs req proc nd =
      (fs, (get_media_creation_date env f).2, none) := by
  simp only [processLoop]
  rw [hg]
  dsimp only []
  rw [hs]

set_option maxHeartbeats 2000000 in
lemma processLoop_cons_ok {env : MediaEnv} {f : String} {d : DateTime}
    {copyOk : String → String → Bool} {dest : Option String} {adj : Int}
    {sim force ret : Bool} {fs2 : FS} {lines : List String}
    (rest : List String) {fs : FS} (req proc nd : Nat)
    (hg : (get_media_creation_date env f).1 = some d)
    (hs : save_media_with_datetime fs copyOk f (some d) dest adj sim force =
      .ok (ret, fs2, lines)) :
    processLoop env copyOk dest adj sim force (f :: rest) fs req proc nd =
      ((processLoop env copyOk dest adj sim force rest fs2 (req + 1)
          (if ret then proc + 1 else proc) nd).1,
       (get_media_creation_date env f).2 ++ lines ++
         (processLoop env copyOk dest adj sim force rest fs2 (req + 1)
           (if ret then proc + 1 else proc) nd).2.1,
       (processLoop env copyOk dest adj sim force rest fs2 (req + 1)
         (if ret then proc + 1 else proc) nd).2.2) := by
  simp only [processLoop]
  rw [hg]
  dsimp only []
  rw [hs]


set_option maxHeartbeats 2000000 in
lemma processLoop_fsLe (env : MediaEnv) (copyOk : String → String → Bool)
    (dest : Option String) (adj : Int) (sim force : Bool) :
    ∀ (files : List String) (fs : FS) (req proc nd : Nat),
      fsLe fs (processLoop env copyOk dest adj sim force files fs req proc nd).1 := by
  intro files
  induction files with
  | nil => intro fs req proc nd; exact fsLe_refl fs
  | cons f rest ih =>
    intro fs req proc nd
    cases hg : (get_media_creation_date env f).1 with
    | some d0 =>
      cases hs : save_media_with_datetime fs copyOk f (some d0) dest adj sim force with
      | error e =>
        rw [processLoop_cons_err rest req proc nd hg hs]
        exact fsLe_refl fs
      | ok t =>
        rcases t with ⟨ret, fs2, lines⟩
        rw [processLoop_cons_ok rest req proc nd hg hs]
        exact fsLe_trans (save_fsLe hs) (ih fs2 (req + 1) (if ret then proc + 1 else proc) nd)
    | none =>
      rw [processLoop_cons_none copyOk dest adj sim force rest fs req proc nd hg]
      exact ih fs (req + 1) proc (nd + 1)

set_option maxHeartbeats 2000000 in
lemma processLoop_establishes (env : MediaEnv) (copyOk : String → String → Bool)
    (dest : Option String) (adj : Int) :
    ∀ (files : List String) (fs fs1 : FS) (req proc nd : Nat) (out : List String)
      (st : Nat × Nat × Nat),
      processLoop env copyOk dest adj false false files fs req proc nd = (fs1, out, some st) →
      ∀ f ∈ files, ∀ d, (get_media_creation_date env f).1 = some d →
        ∃ a, addHours d adj = some a ∧ dupCond fs1 f a dest = true := by
  intro files
  induction files with
  | nil => intro fs fs1 req proc nd out st hrun f hf; cases hf
  | cons f0 rest ih =>
    intro fs fs1 req proc nd out st hrun f hf d hd
    rcases List.mem_cons.1 hf with rfl | hfr
    · cases hs : save_media_with_datetime fs copyOk f (some d) dest adj false false with
      | error e =>
        rw [processLoop_cons_err rest req proc nd hd hs] at hrun
        injection hrun with h1 h2
        injection h2 with h2 h3
        cases h3
      | ok t =>
        rcases t with ⟨ret, fs2, lines⟩
        rw [processLoop_cons_ok rest req proc nd hd hs] at hrun
        rcases hrec : processLoop env copyOk dest adj false false rest fs2
          (req + 1) (if ret then proc + 1 else proc) nd with ⟨fs3, out3, st3⟩
        rw [hrec] at hrun
        dsimp only [] at hrun
        injection hrun with h1 h2
        injection h2 with h2 h3
        subst h1
        obtain ⟨a, haddH, hcase⟩ := save_ok_cases hs
        refine ⟨a, haddH, ?_⟩
        have hle2 : fsLe fs2 fs3 := by
          have hmono := processLoop_fsLe env copyOk dest adj false false rest fs2
            (req + 1) (if ret then proc + 1 else proc) nd
          rw [hrec] at hmono
          exact hmono
        rcases hcase with ⟨_, hfs2, _, hdup⟩ | ⟨_, hfs2⟩
        · refine dupCond_mono hle2 ?_
          rw [hfs2]
          exact hdup
        · refine dupCond_mono hle2 ?_
          rw [hfs2]
          exact dupCond_cons_self fs f a dest
    · cases hg : (get_media_creation_date env f0).1 with
      | some d0 =>
        cases hs : save_media_with_datetime fs copyOk f0 (some d0) dest adj false false with
        | error e =>
          rw [processLoop_cons_err rest req proc nd hg hs] at hrun
          injection hrun with h1 h2
          injection h2 with h2 h3
          cases h3
        | ok t =>
          rcases t with ⟨ret, fs2, lines⟩
          rw [processLoop_cons_ok rest req proc nd hg hs] at hrun
          rcases hrec : processLoop env copyOk dest adj false false rest fs2
            (req + 1) (if ret then proc + 1 else proc) nd with ⟨fs3, out3, st3⟩
          rw [hrec] at hrun
          dsimp only [] at hrun
          injection hrun with h1 h2
          injection h2 with h2 h3
          subst h1
          subst h3
          exact ih fs2 fs3 (req + 1) (if ret then proc + 1 else proc) nd out3 st
            hrec f hfr d hd
      | none =>
        rw [processLoop_cons_none copyOk dest adj false false rest fs req proc nd hg] at hrun
        rcases hrec : processLoop env copyOk dest adj false false rest fs
          (req + 1) proc (nd + 1) with ⟨fs3, out3, st3⟩
        rw [hrec] at hrun
        dsimp only [] at hrun
        injection hrun with h1 h2
        injection h2 with h2 h3
        subst h1
        subst h3
        exact ih fs fs3 (req + 1) proc (nd + 1) out3 st hrec f hfr d hd


set_option maxHeartbeats 2000000 in
lemma processLoop_skips (env : MediaEnv) (copyOk : String → String → Bool)
    (dest : Option String) (adj : Int) :
    ∀ (files : List String) (fs1 : FS) (req proc nd : Nat),
      (∀ f ∈ files, ∀ d, (get_media_creation_date env f).1 = some d →
        ∃ a, addHours d adj = some a ∧ dupCond fs1 f a dest = true) →
      ∃ out req2 nd2,
        processLoop env copyOk dest adj false false files fs1 req proc nd =
          (fs1, out, some (req2, proc, nd2)) := by
  intro files
  induction files with
  | nil =>
    intro fs1 req proc nd hdup
    exact ⟨[], req, nd, processLoop_nil env copyOk dest adj false false fs1 req proc nd⟩
  | cons f rest ih =>
    intro fs1 req proc nd hdup
    cases hg : (get_media_creation_date env f).1 with
    | some d =>
      obtain ⟨a, haddH, hdupf⟩ := hdup f (List.mem_cons_self f rest) d hg
      have hs := @save_skip fs1 copyOk f d a dest adj false haddH hdupf
      obtain ⟨out, req2, nd2, hrec⟩ := ih fs1 (req + 1) proc nd
        (fun f2 hf2 => hdup f2 (List.mem_cons_of_mem _ hf2))
      refine ⟨(get_media_creation_date env f).2 ++ [] ++ out, req2, nd2, ?_⟩
      rw [processLoop_cons_ok rest req proc nd hg hs]
      simp only [Bool.false_eq_true, if_false]
      rw [hrec]
    | none =>
      obtain ⟨out, req2, nd2, hrec⟩ := ih fs1 (req + 1) proc (nd + 1)
        (fun f2 hf2 => hdup f2 (List.mem_cons_of_mem _ hf2))
      refine ⟨(get_media_creation_date env f).2 ++
        [f ++ " - File does not contain the creation date in metadata"] ++ out, req2, nd2, ?_⟩
      rw [processLoop_cons_none copyOk dest adj false false rest fs1 req proc nd hg]
      rw [hrec]

set_option maxHeartbeats 2000000 in
lemma processLoop_no_abort (env : MediaEnv) (copyOk : String → String → Bool)
    (dest : Option String) (adj : Int) (sim force : Bool) :
    ∀ (files : List String) (fs : FS) (req proc nd : Nat),
      (∀ f ∈ files, ∀ d (fs2 : FS), (get_media_creation_date env f).1 = some d →
        ∃ r, save_media_with_datetime fs2 copyOk f (some d) dest adj sim force = .ok r) →
      ∃ fs2 out st,
        processLoop env copyOk dest adj sim force files fs req proc nd =
          (fs2, out, some st) := by
  intro files
  induction files with
  | nil =>
    intro fs req proc nd hok
    exact ⟨fs, [], (req, proc, nd), processLoop_nil env copyOk dest adj sim force fs req proc nd⟩
  | cons f rest ih =>
    intro fs req proc nd hok
    cases hg : (get_media_creation_date env f).1 with
    | some d =>
      obtain ⟨r, hs⟩ := hok f (List.mem_cons_self f rest) d fs hg
      rcases r with ⟨ret, fsn, lines⟩
      obtain ⟨fs2, out, st, hrec⟩ := ih fsn (req + 1) (if ret then proc + 1 else proc) nd
        (fun f2 hf2 => hok f2 (List.mem_cons_of_mem _ hf2))
      refine ⟨fs2, (get_media_creation_date env f).2 ++ lines ++ out, st, ?_⟩
      rw [processLoop_cons_ok rest req proc nd hg hs]
      rw [hrec]
    | none =>
      obtain ⟨fs2, out, st, hrec⟩ := ih fs (req + 1) proc (nd + 1)
        (fun f2 hf2 => hok f2 (List.mem_cons_of_mem _ hf2))
      refine ⟨fs2, (get_media_creation_date env f).2 ++
        [f ++ " - File does not contain the creation date in metadata"] ++ out, st, ?_⟩
      rw [processLoop_cons_none copyOk dest adj sim force rest fs req proc nd hg]
      rw [hrec]


lemma stringExt {s t : String} (h : s.data = t.data) : s = t := by
  cases s
  cases t
  simp only [] at h
  rw [h]

lemma sanitize_filename_id {s : String} (h : ∀ c ∈ s.data, isBadChar c = false) :
    sanitize_filename s = s := by
  apply stringExt
  show s.data.map (fun c => if isBadChar c then '-' else c) = s.data
  have : ∀ (l : List Char), (∀ c ∈ l, isBadChar c = false) →
      l.map (fun c => if isBadChar c then '-' else c) = l := by
    intro l hl
    induction l with
    | nil => rfl
    | cons c cs ih =>
      simp only [List.map_cons, hl c (List.mem_cons_self c cs), Bool.false_eq_true, if_false]
      rw [ih (fun x hx => hl x (List.mem_cons_of_mem c hx))]
  exact this s.data h

lemma lastIdx_eq_none {c : Char} {l : List Char} (h : c ∉ l) : lastIdx c l = none := by
  induction l with
  | nil => rfl
  | cons a as ih =>
    simp only [lastIdx]
    rw [ih (fun hm => h (List.mem_cons_of_mem a hm))]
    rw [if_neg ?_]
    intro hac
    rw [beq_iff_eq] at hac
    exact h (hac ▸ List.mem_cons_self a as)

lemma lastIdx_append_left {c : Char} {P R : List Char} (h : c ∉ P) :
    lastIdx c (P ++ R) =
      match lastIdx c R with
      | some k => some (P.length + k)
      | none => none := by
  induction P with
  | nil => simp; cases lastIdx c R <;> rfl
  | cons a as ih =>
    have has : c ∉ as := fun hm => h (List.mem_cons_of_mem a hm)
    have hac : ¬((a == c) = true) := by
      intro hb
      rw [beq_iff_eq] at hb
      exact h (hb ▸ List.mem_cons_self a as)
    cases hR : lastIdx c R with
    | some k =>
      rw [List.cons_append]
      simp only [lastIdx]
      rw [ih has, hR]
      simp only [List.length_cons, Option.some.injEq]
      omega
    | none =>
      rw [List.cons_append]
      simp only [lastIdx]
      rw [ih has, hR]
      simp [hac]

lemma tsPrefixMatch_no_mem {l : List Char} (h : tsPrefixMatch l = true)
    (hlen : l.length = 20) {c : Char} (hc : ∀ i, classAt i c = false) : c ∉ l := by
  intro hm
  rw [List.mem_iff_get?] at hm
  obtain ⟨i, hi⟩ := hm
  have hilt : i < 20 := by
    by_contra hge
    rw [List.get?_eq_none.2 (by omega)] at hi
    cases hi
  have := (tsPrefixMatch_iff.1 h).2 i hilt c hi
  rw [hc i] at this
  cases this

lemma osSplitL_no_slash {l : List Char} (h : '/' ∉ l) : osSplitL l = ([], l) := by
  simp only [osSplitL, lastIdx_eq_none h]
  simp

lemma strippedStem_data (X : List Char) :
    (strippedStem ⟨X⟩).data = if tsPrefixMatch X then X.drop 20 else X := by
  rw [strippedStem_eq_stripTs]
  simp only [stripTs]
  split
  · rfl
  · rfl

lemma candidateName_congr {p q : String} (a : DateTime)
    (h : (strippedStem (splitext (osSplit p).2).1).data ++ ((splitext (osSplit p).2).2).data =
      (strippedStem (splitext (osSplit q).2).1).data ++ ((splitext (osSplit q).2).2).data) :
    candidateName p a = candidateName q a := by
  simp only [candidateName]
  apply congrArg sanitize_filename
  apply stringExt
  simp only [String.data_append, List.append_assoc, h]


lemma osSplit_snd_no_slash {s : String} (h : '/' ∉ s.data) : (osSplit s).2 = s := by
  apply stringExt
  show (osSplitL s.data).2 = s.data
  rw [osSplitL_no_slash h]

lemma splitextL_PR_none {P R : List Char} (hdot : '.' ∉ P)
    (hd : lastIdx '.' R = none) : splitextL (P ++ R) = (P ++ R, []) := by
  have hePR : lastIdx '.' (P ++ R) = none := by
    rw [lastIdx_append_left hdot, hd]
  simp only [splitextL, hePR]

lemma splitextL_none {R : List Char} (hd : lastIdx '.' R = none) :
    splitextL R = (R, []) := by
  simp only [splitextL, hd]

lemma splitextL_PR_some {P R : List Char} (dR : Nat) (hdot : '.' ∉ P)
    (hP0 : P ≠ []) (hlen : P.length = 20) (hsl : '/' ∉ P ++ R)
    (hd : lastIdx '.' R = some dR) :
    splitextL (P ++ R) = (P ++ R.take dR, R.drop dR) := by
  have hePR : lastIdx '.' (P ++ R) = some (20 + dR) := by
    rw [lastIdx_append_left hdot, hd, hlen]
  simp only [splitextL, hePR, lastIdx_eq_none hsl]
  rw [if_pos (by omega)]
  rw [if_pos ?scan]
  case scan =>
    simp only [List.drop_zero, Nat.sub_zero]
    rw [← hlen, List.take_append]
    rw [List.any_eq_true]
    obtain ⟨c0, hc0⟩ := List.exists_mem_of_ne_nil P hP0
    refine ⟨c0, List.mem_append_left _ hc0, ?_⟩
    rw [bne_iff_ne]
    intro he
    exact hdot (he ▸ hc0)
  rw [← hlen, List.take_append, List.drop_append]

lemma splitextL_some_scan {R : List Char} (dR : Nat) (hRs : '/' ∉ R)
    (hd : lastIdx '.' R = some dR)
    (hscan : (R.take dR).any (fun c => c != '.') = true) :
    splitextL R = (R.take dR, R.drop dR) := by
  simp only [splitextL, hd, lastIdx_eq_none hRs]
  rw [if_pos (by omega)]
  rw [if_pos ?scan]
  case scan =>
    simp only [List.drop_zero, Nat.sub_zero]
    exact hscan

lemma splitextL_some_noscan {R : List Char} (dR : Nat) (hRs : '/' ∉ R)
    (hd : lastIdx '.' R = some dR)
    (hscan : ¬((R.take dR).any (fun c => c != '.') = true)) :
    splitextL R = (R, []) := by
  simp only [splitextL, hd, lastIdx_eq_none hRs]
  rw [if_pos (by omega)]
  rw [if_neg ?scan]
  case scan =>
    simp only [List.drop_zero, Nat.sub_zero]
    exact hscan

lemma c7core (P R : List Char) (hP : tsPrefixMatch P = true) (hlen : P.length = 20)
    (hRs : '/' ∉ R) (hrest : tsPrefixMatch (splitextL R).1 = false) :
    (strippedStem ⟨(splitextL (P ++ R)).1⟩).data ++ (splitextL (P ++ R)).2 =
      (strippedStem ⟨(splitextL R).1⟩).data ++ (splitextL R).2 := by
  have hdot : '.' ∉ P := tsPrefixMatch_no_mem hP hlen classAt_dot
  have hP0 : P ≠ [] := by
    intro he
    rw [he] at hlen
    cases hlen
  have htrans : ∀ X : List Char, tsPrefixMatch (P ++ X) = true := by
    intro X
    rw [tsPrefixMatch_append_left X (by omega)]
    exact hP
  have hdropP : ∀ X : List Char, (P ++ X).drop 20 = X := fun X => List.drop_left' hlen
  cases hd : lastIdx '.' R with
  | none =>
    rw [splitextL_PR_none hdot hd, splitextL_none hd]
    rw [splitextL_none hd] at hrest
    dsimp only []
    rw [strippedStem_data, strippedStem_data, if_pos (htrans R), hdropP R, if_neg ?f]
    case f =>
      rw [hrest]
      simp
  | some dR =>
    have hsl : '/' ∉ P ++ R := by
      rw [List.mem_append]
      rintro (hc | hc)
      · exact tsPrefixMatch_no_mem hP hlen classAt_slash hc
      · exact hRs hc
    rw [splitextL_PR_some dR hdot hP0 hlen hsl hd]
    by_cases hscan : (R.take dR).any (fun c => c != '.') = true
    · rw [splitextL_some_scan dR hRs hd hscan]
      rw [splitextL_some_scan dR hRs hd hscan] at hrest
      dsimp only []
      rw [strippedStem_data, strippedStem_data, if_pos (htrans (R.take dR)),
        hdropP (R.take dR), if_neg ?f]
      case f =>
        rw [hrest]
        simp
    · rw [splitextL_some_noscan dR hRs hd hscan]
      rw [splitextL_some_noscan dR hRs hd hscan] at hrest
      dsimp only []
      rw [strippedStem_data, strippedStem_data, if_pos (htrans (R.take dR)),
        hdropP (R.take dR), if_neg ?f]
      case f =>
        rw [hrest]
        simp
      rw [List.append_nil, List.take_append_drop]


lemma save_ok_total {fs : FS} {copyOk : String → String → Bool} {p : String} {d a : DateTime}
    {dest : Option String} {adj : Int}
    (hc : ∀ q r, copyOk q r = true) (haddH : addHours d adj = some a) :
    ∃ r, save_media_with_datetime fs copyOk p (some d) dest adj false false = .ok r := by
  rw [save_eq, haddH]
  by_cases hdup : dupCond fs p a dest = true
  · exact ⟨(false, fs, []), by simp [hdup]⟩
  · rw [Bool.not_eq_true] at hdup
    exact ⟨(true, (targetDirOf p dest, candidateName p a) :: fs,
      [p ++ " -> " ++ newPathOf p a dest ++ " - Copied"]), by simp [hdup, hc]⟩

/-! ### The claims -/

/-- C1: with `force=false`, a file already present at the exact target path
makes `save_media_with_datetime` a silent `SkippedDuplicate` (result `False`,
filesystem unchanged, no copy), so an existing destination file is never
overwritten; and conversely a run that returns `True` (a copy or simulated
copy happened) found no file at the target path. -/
theorem c1_never_overwrites :
    (∀ (fs : FS) (copyOk : String → String → Bool) (p : String) (d a : DateTime)
        (dest : Option String) (adj : Int) (sim : Bool),
        addHours d adj = some a →
        pathExists fs (newPathOf p a dest) = true →
        save_media_with_datetime fs copyOk p (some d) dest adj sim false =
          .ok (false, fs, [])) ∧
    (∀ (fs fs2 : FS) (copyOk : String → String → Bool) (p : String) (d : DateTime)
        (dest : Option String) (adj : Int) (sim : Bool) (out : List String),
        save_media_with_datetime fs copyOk p (some d) dest adj sim false =
          .ok (true, fs2, out) →
        ∃ a, addHours d adj = some a ∧
          pathExists fs (newPathOf p a dest) = false) := by
  constructor
  · intro fs copyOk p d a dest adj sim haddH hex
    refine save_skip sim haddH ?_
    rw [dupCond, hex]
    rfl
  · intro fs fs2 copyOk p d dest adj sim out h
    rw [save_eq] at h
    cases haddH : addHours d adj with
    | none => rw [haddH] at h; cases h
    | some a =>
      rw [haddH] at h
      dsimp only [] at h
      refine ⟨a, rfl, ?_⟩
      by_cases hdup : dupCond fs p a dest = true
      · rw [hdup] at h
        simp only [Bool.not_false, Bool.and_true, if_true] at h
        injection h with h
        injection h with h1 h
        cases h1
      · rw [Bool.not_eq_true] at hdup
        rw [dupCond] at hdup
        cases hpe : pathExists fs (newPathOf p a dest) with
        | false => rfl
        | true => rw [hpe] at hdup; simp at hdup

set_option maxHeartbeats 4000000 in
/-- Witness for C1 at a concrete input: the destination already holds the
target file, so the save is skipped with no copy and no output. -/
theorem c1_witness :
    save_media_with_datetime [("out", "2023-05-10T14-30-00_photo.jpg")] (fun _ _ => true)
      "photo.jpg" (some ⟨2023, 5, 10, 14, 30, 0⟩) (some "out") 0 false false =
      .ok (false, [("out", "2023-05-10T14-30-00_photo.jpg")], []) :=
  c1_never_overwrites.1 [("out", "2023-05-10T14-30-00_photo.jpg")] (fun _ _ => true)
    "photo.jpg" ⟨2023, 5, 10, 14, 30, 0⟩ ⟨2023, 5, 10, 14, 30, 0⟩ (some "out") 0 false
    (by decide) (by decide)

/-- C3: the metadata extractor never propagates an exception: whatever the
oracle environment does, `get_media_creation_date` either returns the body's
value with no log, or catches the raised exception, logs it, and returns
`none` — absence is the only failure signal. -/
theorem c3_extractor_never_raises :
    ∀ (env : MediaEnv) (p : String),
      (∃ v, getMediaBody env p = .ok v ∧ get_media_creation_date env p = (v, [])) ∨
      (∃ e, getMediaBody env p = .error e ∧
        get_media_creation_date env p = (none, ["Error: " ++ e])) := by
  intro env p
  cases hb : getMediaBody env p with
  | ok v =>
    refine Or.inl ⟨v, rfl, ?_⟩
    unfold get_media_creation_date
    rw [hb]
  | error e =>
    refine Or.inr ⟨e, rfl, ?_⟩
    unfold get_media_creation_date
    rw [hb]

set_option maxHeartbeats 4000000 in
/-- Counterexample to C4: a duplicate skip (`SkippedDuplicate`) produces no
output line at all — the `print` on src line 103 is commented out. -/
theorem c4_counterexample :
    save_media_with_datetime [("d", "2023-05-10T14-30-00_photo.jpg")] (fun _ _ => true)
      "d/photo.jpg" (some ⟨2023, 5, 10, 14, 30, 0⟩) none 0 false false =
      .ok (false, [("d", "2023-05-10T14-30-00_photo.jpg")], []) ∧
    saveOutcome (some ⟨2023, 5, 10, 14, 30, 0⟩) false false = .skippedDuplicate := by
  constructor
  · rfl
  · rfl

/-- C4 as amended: every outcome except `SkippedDuplicate` (`Copied`,
`SimulatedCopy`, `SkippedNoDate`) is reported as exactly one line on standard
output; the duplicate skip prints nothing. -/
theorem c4_amended :
    ∀ (fs fs2 : FS) (copyOk : String → String → Bool) (p : String) (md : Option DateTime)
      (dest : Option String) (adj : Int) (sim force r : Bool) (out : List String),
      save_media_with_datetime fs copyOk p md dest adj sim force = .ok (r, fs2, out) →
      (saveOutcome md sim r = .skippedDuplicate → out = []) ∧
      (saveOutcome md sim r ≠ .skippedDuplicate → ∃ l, out = [l]) := by
  intro fs fs2 copyOk p md dest adj sim force r out h
  cases md with
  | none =>
    simp only [save_media_with_datetime] at h
    injection h with h
    injection h with h1 h
    injection h with h2 h3
    constructor
    · intro hout
      rw [← h1] at hout
      simp [saveOutcome] at hout
    · intro
      exact ⟨_, h3.symm⟩
  | some d =>
    rw [save_eq] at h
    cases haddH : addHours d adj with
    | none => rw [haddH] at h; cases h
    | some a =>
      rw [haddH] at h
      dsimp only [] at h
      by_cases hdup : (!force && dupCond fs p a dest) = true
      · rw [hdup] at h
        simp only [if_true] at h
        injection h with h
        injection h with h1 h
        injection h with h2 h3
        constructor
        · intro
          exact h3.symm
        · intro hne
          rw [← h1] at hne
          simp [saveOutcome] at hne
      · rw [Bool.not_eq_true] at hdup
        rw [hdup] at h
        simp only [Bool.false_eq_true, if_false] at h
        have houtcome : ∀ s : Bool, saveOutcome (some d) s true ≠ .skippedDuplicate := by
          intro s
          cases s <;> simp [saveOutcome]
        cases hsim : (!sim) with
        | false =>
          rw [hsim] at h
          simp only [Bool.false_eq_true, if_false] at h
          injection h with h
          injection h with h1 h
          injection h with h2 h3
          constructor
          · intro hout
            rw [← h1] at hout
            exact absurd hout (houtcome sim)
          · intro
            exact ⟨_, h3.symm⟩
        | true =>
          rw [hsim] at h
          simp only [if_true] at h
          cases hcopy : copyOk p (newPathOf p a dest) with
          | false => rw [hcopy] at h; simp at h
          | true =>
            rw [hcopy] at h
            simp only [if_true] at h
            injection h with h
            injection h with h1 h
            injection h with h2 h3
            constructor
            · intro hout
              rw [← h1] at hout
              exact absurd hout (houtcome sim)
            · intro
              exact ⟨_, h3.symm⟩

set_option maxHeartbeats 4000000 in
/-- Witness for C4 (amended) at a concrete copied file: exactly one line is
printed. -/
theorem c4_witness :
    (saveOutcome (some (⟨2023, 5, 10, 14, 30, 0⟩ : DateTime)) false true =
        CopyOutcome.skippedDuplicate →
      (["photo.jpg -> out/2023-05-10T14-30-00_photo.jpg - Copied"] : List String) = []) ∧
    (saveOutcome (some (⟨2023, 5, 10, 14, 30, 0⟩ : DateTime)) false true ≠
        CopyOutcome.skippedDuplicate →
      ∃ l, (["photo.jpg -> out/2023-05-10T14-30-00_photo.jpg - Copied"] : List String) = [l]) :=
  c4_amended [] [("out", "2023-05-10T14-30-00_photo.jpg")] (fun _ _ => true) "photo.jpg"
    (some ⟨2023, 5, 10, 14, 30, 0⟩) (some "out") 0 false false true
    ["photo.jpg -> out/2023-05-10T14-30-00_photo.jpg - Copied"] (by rfl)

set_option maxHeartbeats 4000000 in
/-- C6 counterexample: for source file `a?b.jpg` (whose base name carries no
timestamp prefix, so the original pre-timestamp name is `a?b.jpg` itself),
stripping the timestamp prefix from the derived filename yields `a-b.jpg`,
not the original name: sanitization also rewrites the base name. -/
theorem c6_counterexample :
    has_timestamp_in_filename (splitext (osSplit "a?b.jpg").2).1 = false ∧
    stripTs (candidateName "a?b.jpg" ⟨2023, 5, 10, 14, 30, 0⟩) ≠ "a?b.jpg" := by
  constructor
  · decide
  · decide

/-- C6 as amended: stripping the timestamp prefix from the derived filename
recovers exactly the sanitized prefix-stripped base name plus sanitized
extension; when these contain none of the invalid characters, that is exactly
the original pre-timestamp base name plus extension. -/
theorem c6_amended :
    ∀ (p : String) (a : DateTime),
      stripTs (candidateName p a) =
        sanitize_filename (strippedStem (splitext (osSplit p).2).1 ++
          (splitext (osSplit p).2).2) ∧
      ((∀ c ∈ (strippedStem (splitext (osSplit p).2).1 ++
            (splitext (osSplit p).2).2).data, isBadChar c = false) →
        stripTs (candidateName p a) =
          strippedStem (splitext (osSplit p).2).1 ++ (splitext (osSplit p).2).2) := by
  intro p a
  refine ⟨stripTs_candidateName p a, fun h => ?_⟩
  rw [stripTs_candidateName p a]
  exact sanitize_filename_id h

set_option maxHeartbeats 4000000 in
/-- Witness for C6 (amended) at `photo.jpg`: the round-trip recovers the
original name, which has no invalid characters. -/
theorem c6_witness :
    stripTs (candidateName "photo.jpg" ⟨2023, 5, 10, 14, 30, 0⟩) =
      strippedStem (splitext (osSplit "photo.jpg").2).1 ++
        (splitext (osSplit "photo.jpg").2).2 :=
  (c6_amended "photo.jpg" ⟨2023, 5, 10, 14, 30, 0⟩).2 (by decide)

set_option maxHeartbeats 4000000 in
/-- Counterexample to C7 as stated: for a doubly-tagged filename (which does
begin with a valid timestamp prefix) the deriver strips only the outer prefix,
so deriving from it differs from deriving from the untagged base name — the
"same output as from the untagged base" part fails on such inputs. -/
theorem c7_counterexample :
    has_timestamp_in_filename "2023-05-10T14-30-00_2023-05-10T14-30-00_photo.jpg" = true ∧
    stripTs "2023-05-10T14-30-00_2023-05-10T14-30-00_photo.jpg" =
      "2023-05-10T14-30-00_photo.jpg" ∧
    candidateName "2023-05-10T14-30-00_2023-05-10T14-30-00_photo.jpg"
        ⟨2023, 5, 10, 14, 30, 0⟩ ≠
      candidateName "photo.jpg" ⟨2023, 5, 10, 14, 30, 0⟩ := by
  refine ⟨by decide, by decide, by decide⟩

/-- C7 as amended: for a filename `P ++ R` whose prefix `P` is a single valid
timestamp prefix and whose remainder's stem is not itself tagged, the deriver
strips exactly that one prefix (`stripTs` recovers `R`) and derivation from
the tagged name agrees with derivation from the untagged base name. -/
theorem c7_amended :
    ∀ (P R : List Char) (a : DateTime),
      tsPrefixMatch P = true → P.length = 20 → '/' ∉ R →
      has_timestamp_in_filename (splitext (⟨R⟩ : String)).1 = false →
      stripTs ⟨P ++ R⟩ = (⟨R⟩ : String) ∧
      candidateName ⟨P ++ R⟩ a = candidateName ⟨R⟩ a := by
  intro P R a hP hlen hRs hrest
  have hRs' : '/' ∉ P ++ R := by
    rw [List.mem_append]
    rintro (hc | hc)
    · exact tsPrefixMatch_no_mem hP hlen classAt_slash hc
    · exact hRs hc
  constructor
  · have htrans : tsPrefixMatch ((⟨P ++ R⟩ : String)).data = true := by
      show tsPrefixMatch (P ++ R) = true
      rw [tsPrefixMatch_append_left R (by omega)]
      exact hP
    simp only [stripTs, if_pos htrans]
    apply congrArg String.mk
    show (P ++ R).drop 20 = R
    exact List.drop_left' hlen
  · apply candidateName_congr
    have h1 : (osSplit (⟨P ++ R⟩ : String)).2 = ⟨P ++ R⟩ := osSplit_snd_no_slash hRs'
    have h2 : (osSplit (⟨R⟩ : String)).2 = ⟨R⟩ := osSplit_snd_no_slash hRs
    rw [h1, h2]
    exact c7core P R hP hlen hRs hrest

set_option maxHeartbeats 4000000 in
/-- Witness for C7 (amended) at the already-tagged name
`2023-05-10T14-30-00_photo.jpg`: stripping recovers `photo.jpg` and the
derived name equals the one derived from `photo.jpg` directly. -/
theorem c7_witness :
    stripTs ⟨"2023-05-10T14-30-00_".data ++ "photo.jpg".data⟩ =
      (⟨"photo.jpg".data⟩ : String) ∧
    candidateName ⟨"2023-05-10T14-30-00_".data ++ "photo.jpg".data⟩
        ⟨2023, 5, 10, 14, 30, 0⟩ =
      candidateName ⟨"photo.jpg".data⟩ ⟨2023, 5, 10, 14, 30, 0⟩ :=
  c7_amended "2023-05-10T14-30-00_".data "photo.jpg".data ⟨2023, 5, 10, 14, 30, 0⟩
    (by decide) (by decide) (by decide) (by decide)

set_option maxHeartbeats 4000000 in
/-- C8: the specified scenario — `photo.jpg`, EXIF capture date
`2023:05:10 14:30:00` (as extracted by the oracle environment), offset `0` —
derives exactly the filename `2023-05-10T14-30-00_photo.jpg`. -/
theorem c8_scenario :
    get_media_creation_date exifEnv "photo.jpg" = (some ⟨2023, 5, 10, 14, 30, 0⟩, []) ∧
    addHours ⟨2023, 5, 10, 14, 30, 0⟩ 0 = some ⟨2023, 5, 10, 14, 30, 0⟩ ∧
    candidateName "photo.jpg" ⟨2023, 5, 10, 14, 30, 0⟩ = "2023-05-10T14-30-00_photo.jpg" := by
  refine ⟨by decide, by decide, by decide⟩

/-- C9: whenever the timestamp adjustment `addHours t n` succeeds, the
resulting timestamp is exactly `t + n` hours (as an absolute second count,
so calendar day, month and year rollover are correct), is a valid calendar
date-time, and it is exactly this adjusted timestamp that is embedded at the
front of the derived filename. -/
theorem c9_hour_offset :
    ∀ (t : DateTime) (n : Int) (a : DateTime),
      addHours t n = some a →
      (totalSeconds a : Int) = (totalSeconds t : Int) + 3600 * n ∧
      isValidDateTime a ∧
      ∀ p : String, candidateName p a =
        sanitize_filename (isoformat a) ++ "_" ++
          sanitize_filename (strippedStem (splitext (osSplit p).2).1 ++
            (splitext (osSplit p).2).2) := by
  intro t n a h
  obtain ⟨h1, h2⟩ := addHours_spec t n a h
  refine ⟨h1, h2, fun p => ?_⟩
  apply stringExt
  rw [candidateName_data]
  simp only [String.data_append]
  rw [List.append_assoc, List.singleton_append]

set_option maxHeartbeats 4000000 in
/-- Witness for C9 at a day/month/year rollover: adding one hour to
2023-12-31 23:30:00 gives 2024-01-01 00:30:00, which is what the derived
filename for `photo.jpg` embeds. -/
theorem c9_witness :
    (totalSeconds ⟨2024, 1, 1, 0, 30, 0⟩ : Int) =
      (totalSeconds ⟨2023, 12, 31, 23, 30, 0⟩ : Int) + 3600 * 1 ∧
    isValidDateTime ⟨2024, 1, 1, 0, 30, 0⟩ ∧
    candidateName "photo.jpg" ⟨2024, 1, 1, 0, 30, 0⟩ =
      sanitize_filename (isoformat ⟨2024, 1, 1, 0, 30, 0⟩) ++ "_" ++
        sanitize_filename (strippedStem (splitext (osSplit "photo.jpg").2).1 ++
          (splitext (osSplit "photo.jpg").2).2) := by
  have hc := c9_hour_offset ⟨2023, 12, 31, 23, 30, 0⟩ 1 ⟨2024, 1, 1, 0, 30, 0⟩ (by decide)
  exact ⟨hc.1, hc.2.1, hc.2.2 "photo.jpg"⟩

set_option maxHeartbeats 4000000 in
/-- C10: with no destination directory and `force=false`, a source file whose
own directory listing contains it (as it must on a real filesystem) and whose
prefix-stripped name has no invalid characters is always skipped: the
duplicate scan finds the source file itself, so no copy and no simulated copy
ever occurs in in-place mode. -/
theorem c10_inplace_skip :
    ∀ (fs : FS) (copyOk : String → String → Bool) (p : String) (d a : DateTime)
      (adj : Int) (sim : Bool),
      addHours d adj = some a →
      (osSplit p).2 ∈ listdir fs (targetDirOf p none) →
      (∀ c ∈ (stripTs (osSplit p).2).data, isBadChar c = false) →
      save_media_with_datetime fs copyOk p (some d) none adj sim false =
        .ok (false, fs, []) := by
  intro fs copyOk p d a adj sim haddH hmem hclean
  refine save_skip sim haddH ?_
  have hX : stripTs (osSplit p).2 =
      strippedStem (splitext (osSplit p).2).1 ++ (splitext (osSplit p).2).2 :=
    stripTs_splitextL ((osSplit p).2).data
  have hstr : stripTs (candidateName p a) = stripTs (osSplit p).2 := by
    rw [stripTs_candidateName, hX]
    rw [hX] at hclean
    exact sanitize_filename_id hclean
  simp only [dupCond]
  have hfm : filename_has_match fs (targetDirOf p none) (candidateName p a) = true := by
    simp only [filename_has_match, List.any_eq_true]
    exact ⟨(osSplit p).2, hmem, by rw [hstr]; exact beq_self_eq_true _⟩
  rw [hfm, Bool.or_true]

set_option maxHeartbeats 4000000 in
/-- Witness for C10: `d/photo.jpg` processed in place while `photo.jpg` is
listed in directory `d` is skipped without copying. -/
theorem c10_witness :
    save_media_with_datetime [("d", "photo.jpg")] (fun _ _ => true) "d/photo.jpg"
      (some ⟨2023, 5, 10, 14, 30, 0⟩) none 0 false false =
      .ok (false, [("d", "photo.jpg")], []) :=
  c10_inplace_skip [("d", "photo.jpg")] (fun _ _ => true) "d/photo.jpg"
    ⟨2023, 5, 10, 14, 30, 0⟩ ⟨2023, 5, 10, 14, 30, 0⟩ 0 false
    (by decide) (by decide) (by decide)

set_option maxHeartbeats 4000000 in
/-- Counterexample to C5 as stated: a failed copy on the first file aborts
the whole batch — the second file is never processed and no summary line is
printed (third component `none` marks the uncaught exception). -/
theorem c5_counterexample :
    process_media exifEnv (fun _ _ => false) ["a.jpg", "b.jpg"] [] (some "out") 0 false false =
      ([], [], none) := by
  decide

/-- C5 as amended: failed extractions are isolated (a file without a date
never aborts the batch), and whenever every copy call succeeds the batch runs
to completion over all files and prints the summary line; only a raising copy
call (spec section 7's uncaught I/O exception) can abort the run. -/
theorem c5_amended :
    ∀ (env : MediaEnv) (copyOk : String → String → Bool) (files : List String) (fs : FS)
      (dest : Option String) (adj : Int) (sim force : Bool),
      files ≠ [] →
      (∀ f ∈ files, ∀ d (fs2 : FS), (get_media_creation_date env f).1 = some d →
        ∃ r, save_media_with_datetime fs2 copyOk f (some d) dest adj sim force = .ok r) →
      ∃ fs2 out st,
        process_media env copyOk files fs dest adj sim force =
          (fs2, out ++ [summaryLine st.1 st.2.1 st.2.2], some st) := by
  intro env copyOk files fs dest adj sim force hne hok
  obtain ⟨fs2, out, st, hloop⟩ :=
    processLoop_no_abort env copyOk dest adj sim force files fs 0 0 0 hok
  refine ⟨fs2, out, st, ?_⟩
  simp only [process_media, if_neg hne]
  rw [hloop]

set_option maxHeartbeats 4000000 in
/-- Witness for C5 (amended): with a succeeding copy oracle, a one-file batch
completes and prints the summary line. -/
theorem c5_witness :
    ∃ fs2 out st,
      process_media exifEnv (fun _ _ => true) ["a.jpg"] [] (some "out") 0 false false =
        (fs2, out ++ [summaryLine st.1 st.2.1 st.2.2], some st) := by
  refine c5_amended exifEnv (fun _ _ => true) ["a.jpg"] [] (some "out") 0 false false
    (by decide) ?_
  intro f hf d fs2 hget
  rcases List.mem_singleton.1 hf with rfl
  have hgv : (get_media_creation_date exifEnv "a.jpg").1 = some ⟨2023, 5, 10, 14, 30, 0⟩ := by
    decide
  rw [hgv] at hget
  injection hget with hd
  subst hd
  exact @save_ok_total fs2 (fun _ _ => true) "a.jpg" ⟨2023, 5, 10, 14, 30, 0⟩
    ⟨2023, 5, 10, 14, 30, 0⟩ (some "out") 0 (fun q r => rfl) (by decide)

/-- C2: idempotence of the batch. A completed first run with `force=false`
leaves the filesystem in a state where every file of the batch that has an
extractable date is detected as a duplicate, so the identical second run
copies nothing: it returns the same filesystem and a processed count of 0. -/
theorem c2_idempotent :
    ∀ (env : MediaEnv) (copyOk : String → String → Bool) (files : List String)
      (fs fs1 : FS) (out1 : List String) (st1 : Nat × Nat × Nat)
      (dest : Option String) (adj : Int),
      process_media env copyOk files fs dest adj false false = (fs1, out1, some st1) →
      (∀ f ∈ files, ∀ d, (get_media_creation_date env f).1 = some d →
        ∃ a, addHours d adj = some a ∧ dupCond fs1 f a dest = true) ∧
      ∃ out2 req2 nd2,
        process_media env copyOk files fs1 dest adj false false =
          (fs1, out2, some (req2, 0, nd2)) := by
  intro env copyOk files fs fs1 out1 st1 dest adj hrun
  by_cases hemp : files = []
  · subst hemp
    simp only [process_media, if_pos rfl] at hrun ⊢
    injection hrun with h1 h2
    subst h1
    constructor
    · intro f hf
      cases hf
    · exact ⟨["No matching media files found."], 0, 0, rfl⟩
  · have hpm := hrun
    simp only [process_media, if_neg hemp] at hpm ⊢
    rcases hloop : processLoop env copyOk dest adj false false files fs 0 0 0
      with ⟨fsA, outA, stA⟩
    rw [hloop] at hpm
    cases stA with
    | none =>
      dsimp only [] at hpm
      injection hpm with h1 h2
      injection h2 with h2 h3
      cases h3
    | some st =>
      dsimp only [] at hpm
      injection hpm with h1 h2
      subst h1
      have hdup := processLoop_establishes env copyOk dest adj files fs fsA 0 0 0 outA st hloop
      refine ⟨hdup, ?_⟩
      obtain ⟨out2, req2, nd2, hrec⟩ := processLoop_skips env copyOk dest adj files fsA 0 0 0 hdup
      refine ⟨out2 ++ [summaryLine req2 0 nd2], req2, nd2, ?_⟩
      rw [hrec]

set_option maxHeartbeats 4000000 in
/-- Witness for C2: after a first run copies `a.jpg` to the destination, the
identical second run detects the duplicate and processes zero files. -/
theorem c2_witness :
    (∀ f ∈ ["a.jpg"], ∀ d, (get_media_creation_date exifEnv f).1 = some d →
      ∃ a, addHours d 0 = some a ∧
        dupCond [("out", "2023-05-10T14-30-00_a.jpg")] f a (some "out") = true) ∧
    ∃ out2 req2 nd2,
      process_media exifEnv (fun _ _ => true) ["a.jpg"]
        [("out", "2023-05-10T14-30-00_a.jpg")] (some "out") 0 false false =
        ([("out", "2023-05-10T14-30-00_a.jpg")], out2, some (req2, 0, nd2)) :=
  c2_idempotent exifEnv (fun _ _ => true) ["a.jpg"] []
    [("out", "2023-05-10T14-30-00_a.jpg")]
    ["a.jpg -> out/2023-05-10T14-30-00_a.jpg - Copied", summaryLine 1 1 0]
    (1, 1, 0) (some "out") 0 (by decide)

end RenameMediaDate
